import Mathlib

/-!
Verification model of the Thunderbird native-messaging bridge host
(`thunderbird_extension/native_host.py`).

The development shallowly embeds the pure logic of the host in Lean:

* a model of the JSON values the host exchanges (`Json`), together with the
  serializer and parser corresponding to `json.dumps(..., ensure_ascii=False)`
  and `json.loads` as the host uses them (integers only: the frames of this host
  carry no floating point numbers, and IEEE floats are outside this model);
* the wire framing of `NativeHost.read_message` and `NativeHost.send_message`
  (4-byte little-endian length followed by UTF-8 JSON bytes), with the byte
  stream modelled as a list of chunks successively returned by `os.read`;
* the dispatch logic of `NativeHost.handle_incoming`, the job scan of
  `NativeHost.scan_and_forward_jobs` and the poll loop body of
  `NativeHost.run`, with the queue directories modelled as association lists
  and OS outcomes (send success or failure, rename success or failure)
  supplied as explicit oracles;
* the process-lock acquisition of `NativeHost._acquire_process_lock`,
  modelled sequentially over the state of the lock file.

Set-option notes: all definitions are computable so every concrete scenario
can be settled by `decide` or `rfl`.
-/

set_option linter.unusedVariables false

namespace NativeHostModel

/-! ## JSON values

`Json` models the Python values the host passes to `json.dumps` / receives
from `json.loads`: `None`, booleans, integers, strings, lists and dicts.
Dicts are modelled as association lists in insertion order, which is the
order Python preserves and the order `json.dumps` serializes.  Python floats
are not modelled (the host never produces one). -/

mutual
inductive Json where
  | null : Json
  | bool (b : Bool) : Json
  | num (n : Int) : Json
  | str (s : String) : Json
  | arr (xs : JsonArr) : Json
  | obj (kvs : JsonObj) : Json
  deriving DecidableEq

inductive JsonArr where
  | nil : JsonArr
  | cons (hd : Json) (tl : JsonArr) : JsonArr
  deriving DecidableEq

inductive JsonObj where
  | nil : JsonObj
  | cons (k : String) (v : Json) (tl : JsonObj) : JsonObj
  deriving DecidableEq
end

/-- Python `d.get(k)` / `k in d` on a dict: first (unique) binding of `k`. -/
def JsonObj.get : JsonObj → String → Option Json
  | .nil, _ => none
  | .cons k' v t, k => if k' = k then some v else JsonObj.get t k

/-- Python `d[k] = v` on a dict: replace the binding in place if the key is
present, otherwise append the new binding (insertion order semantics). -/
def JsonObj.set : JsonObj → String → Json → JsonObj
  | .nil, k, v => .cons k v .nil
  | .cons k' v' t, k, v =>
    if k' = k then .cons k v t else .cons k' v' (JsonObj.set t k v)

/-- Keys of a dict, in insertion order. -/
def JsonObj.keys : JsonObj → List String
  | .nil => []
  | .cons k _ t => k :: JsonObj.keys t

mutual
/-- A `Json` value is representable as a Python value only when no dict in it
has a duplicated key (Python dicts cannot). -/
def Json.pyRepresentable : Json → Bool
  | .null => true
  | .bool _ => true
  | .num _ => true
  | .str _ => true
  | .arr xs => JsonArr.pyRepresentable xs
  | .obj kvs => (JsonObj.keys kvs).Nodup && JsonObj.pyRepresentable kvs

def JsonArr.pyRepresentable : JsonArr → Bool
  | .nil => true
  | .cons x t => Json.pyRepresentable x && JsonArr.pyRepresentable t

def JsonObj.pyRepresentable : JsonObj → Bool
  | .nil => true
  | .cons _ v t => Json.pyRepresentable v && JsonObj.pyRepresentable t
end

/-! ## Decimal printing of integers (Python `str` / `json.dumps` on ints) -/

/-- Decimal digits, fueled so the recursion is structural (and hence
kernel-computable); `fuel ≥ n` always suffices because the leading part
`n / 10` strictly shrinks. -/
def natDigitsAux : Nat → Nat → List Char
  | 0, n => [Char.ofNat (48 + n % 10)]
  | fuel + 1, n =>
    if n < 10 then [Char.ofNat (48 + n)]
    else natDigitsAux fuel (n / 10) ++ [Char.ofNat (48 + n % 10)]

/-- Decimal digits of a natural number, most significant first
(the characters of Python `str(n)` for `n ≥ 0`). -/
def natDigits (n : Nat) : List Char := natDigitsAux n n

/-- Characters of Python `str(n)` for an integer `n`: a `-` sign when the
integer is negative, then the decimal digits of its absolute value. -/
def intChars : Int → List Char
  | .ofNat n => natDigits n
  | .negSucc n => '-' :: natDigits (n + 1)

/-! ## Python truthiness and `str()` on JSON values

`handle_incoming` applies `bool(...)` and `str(...)` to values drawn from
decoded frames, and `scan_and_forward_jobs` applies `... or ...` defaulting,
so the model needs Python truthiness and `str` on all `Json` constructors. -/

/-- Python truthiness of a JSON value. -/
def pyTruthy : Json → Bool
  | .null => false
  | .bool b => b
  | .num n => decide (n ≠ 0)
  | .str s => decide (s.data ≠ [])
  | .arr .nil => false
  | .arr (.cons _ _) => true
  | .obj .nil => false
  | .obj (.cons _ _ _) => true

/-- Python truthiness of `d.get(k)` (missing key is `None`, hence falsy). -/
def pyTruthyOpt : Option Json → Bool
  | none => false
  | some v => pyTruthy v

def backslashChar : Char := Char.ofNat 92

def quoteChar : Char := Char.ofNat 34

def apostropheChar : Char := Char.ofNat 39

def lbraceChar : Char := Char.ofNat 123

def rbraceChar : Char := Char.ofNat 125

/-- Lowercase hexadecimal digit, as Python prints in escapes. -/
def hexDigitChar (n : Nat) : Char :=
  if n < 10 then Char.ofNat (48 + n) else Char.ofNat (87 + n)

/-- One character of a Python quoted string repr.  `q` is the
quote character in use.  ASCII control characters are escaped as in CPython
(`\n`, `\r`, `\t`, otherwise `\xHH`); the model keeps all other characters
raw (an ASCII-level approximation of the CPython printability classification,
immaterial here: the host only ever applies `str()` to ids). -/
def pyReprChar (q : Char) (c : Char) : List Char :=
  if c = backslashChar then [backslashChar, backslashChar]
  else if c = q then [backslashChar, q]
  else if c = Char.ofNat 10 then [backslashChar, 'n']
  else if c = Char.ofNat 13 then [backslashChar, 'r']
  else if c = Char.ofNat 9 then [backslashChar, 't']
  else if c.toNat < 32 || c.toNat = 127 then
    [backslashChar, 'x', hexDigitChar (c.toNat / 16), hexDigitChar (c.toNat % 16)]
  else [c]

/-- Python `repr` of a string: single quotes, or double quotes when the text
contains an apostrophe but no double quote. -/
def pyReprStr (s : String) : List Char :=
  let q := if s.data.contains apostropheChar && !(s.data.contains quoteChar)
           then quoteChar else apostropheChar
  q :: s.data.flatMap (pyReprChar q) ++ [q]

mutual
/-- Python `repr` of a JSON value (used by `str()` on containers). -/
def pyReprChars : Json → List Char
  | .null => ['N', 'o', 'n', 'e']
  | .bool true => ['T', 'r', 'u', 'e']
  | .bool false => ['F', 'a', 'l', 's', 'e']
  | .num n => intChars n
  | .str s => pyReprStr s
  | .arr .nil => ['[', ']']
  | .arr (.cons x t) => '[' :: (pyReprChars x ++ pyReprArrTail t) ++ [']']
  | .obj .nil => [lbraceChar, rbraceChar]
  | .obj (.cons k v t) =>
    lbraceChar :: (pyReprStr k ++ ':' :: ' ' :: pyReprChars v ++ pyReprObjTail t)
      ++ [rbraceChar]

def pyReprArrTail : JsonArr → List Char
  | .nil => []
  | .cons x t => ',' :: ' ' :: pyReprChars x ++ pyReprArrTail t

def pyReprObjTail : JsonObj → List Char
  | .nil => []
  | .cons k v t => ',' :: ' ' :: (pyReprStr k ++ ':' :: ' ' :: pyReprChars v)
      ++ pyReprObjTail t
end

/-- Python `str()` of a JSON value, as `handle_incoming` applies it to the
`id` and `error` fields of an inbound frame. -/
def pyStr : Json → String
  | .str s => s
  | v => String.mk (pyReprChars v)

/-! ## Serialization: `json.dumps(msg, ensure_ascii=False)`

`send_message` serializes with `json.dumps(msg, ensure_ascii=False)`:
default separators `", "` and `": "`, double-quoted strings in which only
the double quote, the backslash and ASCII control characters are escaped
(the five named escapes, `\u00XX` for the rest); all other characters stay
raw because `ensure_ascii` is off. -/

/-- Escape of one character inside a `json.dumps` double-quoted string. -/
def escChar (c : Char) : List Char :=
  if c = quoteChar then [backslashChar, quoteChar]
  else if c = backslashChar then [backslashChar, backslashChar]
  else if c = Char.ofNat 8 then [backslashChar, 'b']
  else if c = Char.ofNat 9 then [backslashChar, 't']
  else if c = Char.ofNat 10 then [backslashChar, 'n']
  else if c = Char.ofNat 12 then [backslashChar, 'f']
  else if c = Char.ofNat 13 then [backslashChar, 'r']
  else if c.toNat < 32 then
    [backslashChar, 'u', '0', '0', hexDigitChar (c.toNat / 16), hexDigitChar (c.toNat % 16)]
  else [c]

/-- A `json.dumps` string literal: `"` + escaped characters + `"`. -/
def strLit (s : String) : List Char :=
  quoteChar :: s.data.flatMap escChar ++ [quoteChar]

mutual
/-- Characters of `json.dumps(v, ensure_ascii=False)`. -/
def dumpsChars : Json → List Char
  | .null => "null".data
  | .bool true => "true".data
  | .bool false => "false".data
  | .num n => intChars n
  | .str s => strLit s
  | .arr .nil => ['[', ']']
  | .arr (.cons x t) => '[' :: (dumpsChars x ++ dumpsArrTail t) ++ [']']
  | .obj .nil => [lbraceChar, rbraceChar]
  | .obj (.cons k v t) =>
    lbraceChar :: (strLit k ++ ':' :: ' ' :: dumpsChars v ++ dumpsObjTail t)
      ++ [rbraceChar]

/-- Remaining array items, each preceded by the `", "` separator. -/
def dumpsArrTail : JsonArr → List Char
  | .nil => []
  | .cons x t => ',' :: ' ' :: dumpsChars x ++ dumpsArrTail t

/-- Remaining object entries, each preceded by the `", "` separator. -/
def dumpsObjTail : JsonObj → List Char
  | .nil => []
  | .cons k v t => ',' :: ' ' :: (strLit k ++ ':' :: ' ' :: dumpsChars v)
      ++ dumpsObjTail t
end

/-! ## Parsing: `json.loads`

The recursive-descent parser below models `json.loads` on the integer
fragment of JSON: objects, arrays, strings (with the standard escapes),
integers, `true`, `false`, `null`, with JSON whitespace accepted between
tokens and a trailing-data check at top level.  Deviations from CPython,
none of which the host can observe: a numeric literal with a fraction or
exponent part (a float) and a string escape encoding a lone surrogate are
mapped to a parse failure instead of a float / lone-surrogate value, since
neither is representable in this model.  Recursion is fueled; `loads`
supplies fuel that provably suffices for any serializer output. -/

/-- JSON whitespace accepted by `json.loads` (space, tab, newline, return). -/
def isJsonWs (c : Char) : Bool :=
  c.toNat = 32 || c.toNat = 9 || c.toNat = 10 || c.toNat = 13

def skipWs : List Char → List Char
  | [] => []
  | c :: cs => if isJsonWs c then skipWs cs else c :: cs

def isDigitChar (c : Char) : Bool := 48 ≤ c.toNat && c.toNat ≤ 57

/-- Numeric value of a run of decimal digit characters. -/
def digitsToNat (ds : List Char) : Nat :=
  ds.foldl (fun a c => a * 10 + (c.toNat - 48)) 0

def hexCharVal : Char → Option Nat := fun c =>
  if 48 ≤ c.toNat && c.toNat ≤ 57 then some (c.toNat - 48)
  else if 97 ≤ c.toNat && c.toNat ≤ 102 then some (c.toNat - 87)
  else if 65 ≤ c.toNat && c.toNat ≤ 70 then some (c.toNat - 55)
  else none

/-- Body of a JSON string literal after the opening quote: characters up to
the closing quote, undoing the standard escapes.  A `\uXXXX` escape must
denote a Unicode scalar value (see the section comment on lone surrogates;
surrogate pairs do not occur in serializer output and are not modelled). -/
def parseStrBody : List Char → Option (List Char × List Char)
  | [] => none
  | c :: rest =>
    if c = quoteChar then some ([], rest)
    else if c = backslashChar then
      match rest with
      | [] => none
      | e :: rest2 =>
        if e = quoteChar then
          (parseStrBody rest2).map (fun p => (quoteChar :: p.1, p.2))
        else if e = backslashChar then
          (parseStrBody rest2).map (fun p => (backslashChar :: p.1, p.2))
        else if e = '/' then
          (parseStrBody rest2).map (fun p => ('/' :: p.1, p.2))
        else if e = 'b' then
          (parseStrBody rest2).map (fun p => (Char.ofNat 8 :: p.1, p.2))
        else if e = 'f' then
          (parseStrBody rest2).map (fun p => (Char.ofNat 12 :: p.1, p.2))
        else if e = 'n' then
          (parseStrBody rest2).map (fun p => (Char.ofNat 10 :: p.1, p.2))
        else if e = 'r' then
          (parseStrBody rest2).map (fun p => (Char.ofNat 13 :: p.1, p.2))
        else if e = 't' then
          (parseStrBody rest2).map (fun p => (Char.ofNat 9 :: p.1, p.2))
        else if e = 'u' then
          match rest2 with
          | h1 :: h2 :: h3 :: h4 :: rest3 =>
            match hexCharVal h1, hexCharVal h2, hexCharVal h3, hexCharVal h4 with
            | some d1, some d2, some d3, some d4 =>
              let n := d1 * 4096 + d2 * 256 + d3 * 16 + d4
              if 55296 ≤ n && n ≤ 57343 then none
              else (parseStrBody rest3).map (fun p => (Char.ofNat n :: p.1, p.2))
            | _, _, _, _ => none
          | _ => none
        else none
    else (parseStrBody rest).map (fun p => (c :: p.1, p.2))

/-- The integer ends here: accept unless a fraction or exponent follows
(which would make the literal a float, outside this model). -/
def finishInt (neg : Bool) (n : Nat) (rest : List Char) : Option (Json × List Char) :=
  match rest with
  | [] => some (.num (if neg then -(n : Int) else (n : Int)), [])
  | c :: _ =>
    if c = '.' || c = 'e' || c = 'E' then none
    else some (.num (if neg then -(n : Int) else (n : Int)), rest)

/-- Magnitude of a JSON integer literal: `0`, or a run of digits with a
nonzero leading digit. -/
def parseNumMag (neg : Bool) : List Char → Option (Json × List Char)
  | [] => none
  | c :: t =>
    if c = '0' then finishInt neg 0 t
    else if isDigitChar c then
      finishInt neg (digitsToNat (c :: t.takeWhile isDigitChar)) (t.dropWhile isDigitChar)
    else none

/-- JSON integer literal: optional `-`, then the magnitude. -/
def parseNumber : List Char → Option (Json × List Char)
  | [] => none
  | c :: t => if c = '-' then parseNumMag true t else parseNumMag false (c :: t)

mutual
/-- One JSON value, skipping leading whitespace.  The scanner dispatches on
the first character: string, array, object, keyword (`null`, `true`,
`false`, matched literally as the CPython scanner does), or number. -/
def parseVal : Nat → List Char → Option (Json × List Char)
  | 0, _ => none
  | fuel + 1, cs =>
    match skipWs cs with
    | [] => none
    | c :: rest =>
      if c = quoteChar then
        (parseStrBody rest).map (fun p => (.str (String.mk p.1), p.2))
      else if c = '[' then parseArrRest fuel rest
      else if c = lbraceChar then parseObjRest fuel rest
      else if c = 'n' then
        if rest.take 3 = ['u', 'l', 'l'] then some (.null, rest.drop 3) else none
      else if c = 't' then
        if rest.take 3 = ['r', 'u', 'e'] then some (.bool true, rest.drop 3) else none
      else if c = 'f' then
        if rest.take 4 = ['a', 'l', 's', 'e'] then some (.bool false, rest.drop 4)
        else none
      else if c = '-' || isDigitChar c then parseNumber (c :: rest)
      else none

/-- The inside of an array, after the opening bracket. -/
def parseArrRest : Nat → List Char → Option (Json × List Char)
  | 0, _ => none
  | fuel + 1, cs =>
    match skipWs cs with
    | [] => none
    | c :: rest =>
      if c = ']' then some (.arr .nil, rest)
      else
        match parseVal fuel (c :: rest) with
        | some (v, r1) =>
          match parseArrTail fuel r1 with
          | some (t, r2) => some (.arr (.cons v t), r2)
          | none => none
        | none => none

/-- After an array item: either `]` or `,` and further items. -/
def parseArrTail : Nat → List Char → Option (JsonArr × List Char)
  | 0, _ => none
  | fuel + 1, cs =>
    match skipWs cs with
    | [] => none
    | c :: rest =>
      if c = ']' then some (.nil, rest)
      else if c = ',' then
        match parseVal fuel rest with
        | some (v, r1) =>
          match parseArrTail fuel r1 with
          | some (t, r2) => some (.cons v t, r2)
          | none => none
        | none => none
      else none

/-- The inside of an object, after the opening brace. -/
def parseObjRest : Nat → List Char → Option (Json × List Char)
  | 0, _ => none
  | fuel + 1, cs =>
    match skipWs cs with
    | [] => none
    | c :: rest =>
      if c = rbraceChar then some (.obj .nil, rest)
      else if c = quoteChar then
        match parseStrBody rest with
        | some (k, r1) =>
          match skipWs r1 with
          | ':' :: r2 =>
            match parseVal fuel r2 with
            | some (v, r3) =>
              match parseObjTail fuel r3 with
              | some (t, r4) => some (.obj (.cons (String.mk k) v t), r4)
              | none => none
            | none => none
          | _ => none
        | none => none
      else none

/-- After an object entry: either `}` or `,` and further entries. -/
def parseObjTail : Nat → List Char → Option (JsonObj × List Char)
  | 0, _ => none
  | fuel + 1, cs =>
    match skipWs cs with
    | [] => none
    | c :: rest =>
      if c = rbraceChar then some (.nil, rest)
      else if c = ',' then
        match skipWs rest with
        | c' :: rest' =>
          if c' = quoteChar then
            match parseStrBody rest' with
            | some (k, r1) =>
              match skipWs r1 with
              | ':' :: r2 =>
                match parseVal fuel r2 with
                | some (v, r3) =>
                  match parseObjTail fuel r3 with
                  | some (t, r4) => some (.cons (String.mk k) v t, r4)
                  | none => none
                | none => none
              | _ => none
            | none => none
          else none
        | [] => none
      else none
end

/-- `json.loads` on the modelled fragment: parse one value, then require
only whitespace to follow (CPython raises `Extra data` otherwise).  The
fuel `2 * length + 4` suffices for every input the serializer can emit
(established by the round-trip theorem). -/
def loadsChars (cs : List Char) : Option Json :=
  match parseVal (2 * cs.length + 4) cs with
  | some (v, rest) => if skipWs rest = [] then some v else none
  | none => none

/-! ## Round trip: the parser inverts the serializer

The claims about `decode(encode(x))` need that `loadsChars` undoes
`dumpsChars`.  The proof is by strong induction on the parser fuel; the
auxiliary lemmas handle digit runs, string escapes and the boundary
conditions between a printed value and what follows it. -/

/-- What may legally follow a printed value without extending it: nothing,
or a character that cannot extend a numeric literal. -/
def numDelim : List Char → Bool
  | [] => true
  | c :: _ => !(isDigitChar c || c = '.' || c = 'e' || c = 'E')

theorem skipWs_cons {c : Char} (l : List Char) (h : isJsonWs c = false) :
    skipWs (c :: l) = c :: l := by
  simp [skipWs, h]

/-- `numHead p r`: the head of `r` (if any) fails `p`; the stopping
condition of `takeWhile` at the junction. -/
def numHead (p : Char → Bool) : List Char → Prop
  | [] => True
  | c :: _ => p c = false

theorem takeWhile_append_all {p : Char → Bool} :
    ∀ (l r : List Char), (∀ c ∈ l, p c = true) → numHead p r →
      (l ++ r).takeWhile p = l ∧ (l ++ r).dropWhile p = r
  | [], r, _, hr => by
    cases r with
    | nil => simp
    | cons c t =>
      simp only [numHead] at hr
      simp [List.takeWhile, List.dropWhile, hr]
  | c :: l, r, hl, hr => by
    have hc : p c = true := hl c (by simp)
    have ih := takeWhile_append_all l r (fun d hd => hl d (by simp [hd])) hr
    simp [List.takeWhile, List.dropWhile, hc, ih.1, ih.2]

theorem natDigitsAux_facts :
    ∀ (fuel n : Nat), n ≤ fuel →
      (∀ c ∈ natDigitsAux fuel n, isDigitChar c = true) ∧
      digitsToNat (natDigitsAux fuel n) = n ∧
      (∃ d t, natDigitsAux fuel n = d :: t ∧ isDigitChar d = true ∧
        (1 ≤ n → d ≠ '0'))
  | 0, n, hn => by
    have hn0 : n = 0 := by omega
    subst hn0
    refine ⟨?_, ?_, '0', [], ?_⟩ <;> simp [natDigitsAux, digitsToNat] <;> decide
  | fuel + 1, n, hn => by
    have hdig : ∀ m, m < 10 → isDigitChar (Char.ofNat (48 + m)) = true := by decide
    have hval : ∀ m, m < 10 → (Char.ofNat (48 + m)).toNat - 48 = m := by decide
    have hnz : ∀ m, m < 10 → 1 ≤ m → Char.ofNat (48 + m) ≠ '0' := by decide
    by_cases h10 : n < 10
    · refine ⟨?_, ?_, Char.ofNat (48 + n), [], ?_⟩
      · intro c hc
        simp only [natDigitsAux, if_pos h10, List.mem_singleton] at hc
        subst hc; exact hdig n h10
      · simp only [natDigitsAux, if_pos h10, digitsToNat, List.foldl]
        have := hval n h10; omega
      · exact ⟨by simp [natDigitsAux, if_pos h10], hdig n h10, hnz n h10⟩
    · have hrec : n / 10 ≤ fuel := by omega
      obtain ⟨hall, hnum, d, t, hsh, hd, hd0⟩ := natDigitsAux_facts fuel (n / 10) hrec
      refine ⟨?_, ?_, d, t ++ [Char.ofNat (48 + n % 10)], ?_⟩
      · intro c hc
        simp only [natDigitsAux, if_neg h10, List.mem_append, List.mem_singleton] at hc
        rcases hc with hc | hc
        · exact hall c hc
        · subst hc; exact hdig (n % 10) (by omega)
      · simp only [natDigitsAux, if_neg h10, digitsToNat, List.foldl_append]
        have h1 : List.foldl (fun a c => a * 10 + (c.toNat - 48)) 0
            (natDigitsAux fuel (n / 10)) = n / 10 := hnum
        simp only [List.foldl, h1]
        have := hval (n % 10) (by omega); omega
      · refine ⟨?_, hd, fun _ => hd0 (by omega)⟩
        simp [natDigitsAux, if_neg h10, hsh]

theorem parseNumMag_natDigits (neg : Bool) (n : Nat) (rest : List Char)
    (h : numDelim rest = true) :
    parseNumMag neg (natDigits n ++ rest) =
      some (.num (if neg then -(n : Int) else (n : Int)), rest) := by
  obtain ⟨hall, hnum, d, t, hsh, hd, hd0⟩ := natDigitsAux_facts n n le_rfl
  have hrest : numHead isDigitChar rest := by
    cases rest with
    | nil => trivial
    | cons c _ =>
      simp only [numDelim, Bool.not_eq_eq_eq_not, Bool.not_true, Bool.or_eq_false_iff,
        decide_eq_false_iff_not] at h
      simp [numHead, h.1.1.1]
  have hfin : finishInt neg n rest =
      some (.num (if neg then -(n : Int) else (n : Int)), rest) := by
    cases rest with
    | nil => rfl
    | cons c _ =>
      simp only [numDelim, Bool.not_eq_eq_eq_not, Bool.not_true, Bool.or_eq_false_iff,
        decide_eq_false_iff_not] at h
      simp [finishInt, h.1.1.2, h.1.2, h.2]
  by_cases hz : n = 0
  · subst hz
    have : natDigits 0 = ['0'] := by decide
    rw [this]
    simpa [parseNumMag] using hfin
  · simp only [natDigits]
    rw [hsh]
    have htail : ∀ c ∈ t, isDigitChar c = true := by
      intro c hc; exact hall c (by rw [hsh]; simp [hc])
    have hsplit := takeWhile_append_all t rest htail hrest
    have hdz : d ≠ '0' := hd0 (by omega)
    simp only [parseNumMag, List.cons_append, if_neg hdz, hd, if_pos rfl, if_true,
      hsplit.1, hsplit.2]
    have : digitsToNat (d :: t) = n := by rw [← hsh]; exact hnum
    rw [this]
    exact hfin

theorem parseNumber_intChars (m : Int) (rest : List Char) (h : numDelim rest = true) :
    parseNumber (intChars m ++ rest) = some (.num m, rest) := by
  cases m with
  | ofNat n =>
    obtain ⟨hall, hnum, d, t, hsh, hd, hd0⟩ := natDigitsAux_facts n n le_rfl
    have hdm : d ≠ '-' := by
      intro he; subst he
      have : isDigitChar '-' = false := by decide
      simp [this] at hd
    show parseNumber (natDigits n ++ rest) = _
    simp only [natDigits]
    rw [hsh]
    simp only [List.cons_append, parseNumber, if_neg hdm]
    rw [← List.cons_append, ← hsh]
    have := parseNumMag_natDigits false n rest h
    simp only [natDigits] at this
    simpa using this
  | negSucc n =>
    show parseNumber ('-' :: natDigits (n + 1) ++ rest) = _
    simp only [List.cons_append, parseNumber, if_pos rfl]
    rw [parseNumMag_natDigits true (n + 1) rest h]
    simp [Int.negSucc_eq]

theorem char_ne_of_toNat_ne {c w : Char} (h : c.toNat ≠ w.toNat) : c ≠ w :=
  fun he => h (by rw [he])

theorem isDigit_not_ws {c : Char} (h : isDigitChar c = true) : isJsonWs c = false := by
  simp only [isDigitChar, Bool.and_eq_true, decide_eq_true_eq] at h
  simp only [isJsonWs, Bool.or_eq_false_iff, decide_eq_false_iff_not]
  omega

theorem parseStrBody_escChar :
    ∀ (l : List Char) (rest : List Char),
      parseStrBody (l.flatMap escChar ++ quoteChar :: rest) = some (l, rest)
  | [], rest => by
    rw [List.flatMap_nil, List.nil_append, parseStrBody.eq_def]
    simp
  | c :: l, rest => by
    have ih := parseStrBody_escChar l rest
    show parseStrBody ((escChar c ++ l.flatMap escChar) ++ quoteChar :: rest) = _
    rw [List.append_assoc]
    by_cases h1 : c = quoteChar
    · subst h1
      simp only [escChar, if_pos rfl, List.cons_append, List.nil_append]
      rw [parseStrBody.eq_def]
      simp +decide [ih]
    by_cases h2 : c = backslashChar
    · subst h2
      simp only [escChar, if_neg h1, if_pos rfl, List.cons_append, List.nil_append]
      rw [parseStrBody.eq_def]
      simp +decide [ih]
    by_cases h3 : c = Char.ofNat 8
    · subst h3
      simp only [escChar, if_neg h1, if_neg h2, if_pos rfl, List.cons_append,
        List.nil_append]
      rw [parseStrBody.eq_def]
      simp +decide [ih]
    by_cases h4 : c = Char.ofNat 9
    · subst h4
      simp only [escChar, if_neg h1, if_neg h2, if_neg h3, if_pos rfl,
        List.cons_append, List.nil_append]
      rw [parseStrBody.eq_def]
      simp +decide [ih]
    by_cases h5 : c = Char.ofNat 10
    · subst h5
      simp only [escChar, if_neg h1, if_neg h2, if_neg h3, if_neg h4, if_pos rfl,
        List.cons_append, List.nil_append]
      rw [parseStrBody.eq_def]
      simp +decide [ih]
    by_cases h6 : c = Char.ofNat 12
    · subst h6
      simp only [escChar, if_neg h1, if_neg h2, if_neg h3, if_neg h4, if_neg h5,
        if_pos rfl, List.cons_append, List.nil_append]
      rw [parseStrBody.eq_def]
      simp +decide [ih]
    by_cases h7 : c = Char.ofNat 13
    · subst h7
      simp only [escChar, if_neg h1, if_neg h2, if_neg h3, if_neg h4, if_neg h5,
        if_neg h6, if_pos rfl, List.cons_append, List.nil_append]
      rw [parseStrBody.eq_def]
      simp +decide [ih]
    by_cases h8 : c.toNat < 32
    · simp only [escChar, if_neg h1, if_neg h2, if_neg h3, if_neg h4, if_neg h5,
        if_neg h6, if_neg h7, if_pos h8, List.cons_append, List.nil_append]
      have hx : ∀ d, d < 16 → hexCharVal (hexDigitChar d) = some d := by decide
      have hz : hexCharVal '0' = some 0 := by decide
      rw [parseStrBody.eq_def]
      simp +decide only [hx (c.toNat / 16) (by omega), hx (c.toNat % 16) (by omega), hz]
      have hval : 0 * 4096 + 0 * 256 + c.toNat / 16 * 16 + c.toNat % 16 = c.toNat := by
        omega
      rw [hval]
      have hsur : (decide (55296 ≤ c.toNat) && decide (c.toNat ≤ 57343)) = false := by
        have : ¬ (55296 ≤ c.toNat) := by omega
        simp [this]
      rw [hsur]
      simp only [Bool.false_eq_true, if_false]
      rw [ih, Char.ofNat_toNat]
      rfl
    · simp only [escChar, if_neg h1, if_neg h2, if_neg h3, if_neg h4, if_neg h5,
        if_neg h6, if_neg h7, if_neg h8, List.cons_append, List.nil_append]
      rw [parseStrBody.eq_def]
      simp only [if_neg h1, if_neg h2, ih]
      rfl

mutual
/-- Parser fuel sufficient for a value: two units per nesting level plus
slack, so that the fuel threaded through `parseVal` / `parseArrRest` /
`parseObjRest` never runs out on serializer output. -/
def jsonFuel : Json → Nat
  | .null => 1
  | .bool _ => 1
  | .num _ => 1
  | .str _ => 1
  | .arr xs => arrFuel xs + 3
  | .obj kvs => objFuel kvs + 3

def arrFuel : JsonArr → Nat
  | .nil => 1
  | .cons x t => max (jsonFuel x) (arrFuel t) + 1

def objFuel : JsonObj → Nat
  | .nil => 1
  | .cons _ v t => max (jsonFuel v) (objFuel t) + 1
end

mutual
theorem jsonFuel_le (v : Json) : jsonFuel v ≤ 2 * (dumpsChars v).length + 2 := by
  cases v with
  | null => simp [jsonFuel]
  | bool b => simp [jsonFuel]
  | num n => simp [jsonFuel]
  | str s => simp [jsonFuel]
  | arr xs =>
    cases xs with
    | nil => simp +decide [jsonFuel, arrFuel, dumpsChars]
    | cons x t =>
      have h1 := jsonFuel_le x
      have h2 := arrFuel_le t
      have h3 := le_max_left (jsonFuel x) (arrFuel t)
      have h4 := le_max_right (jsonFuel x) (arrFuel t)
      have h5 : max (jsonFuel x) (arrFuel t) ≤ jsonFuel x + arrFuel t := by omega
      simp only [jsonFuel, arrFuel, dumpsChars, List.length_cons, List.length_append,
        List.length_singleton]
      omega
  | obj kvs =>
    cases kvs with
    | nil => simp +decide [jsonFuel, objFuel, dumpsChars]
    | cons k v t =>
      have h1 := jsonFuel_le v
      have h2 := objFuel_le t
      have h5 : max (jsonFuel v) (objFuel t) ≤ jsonFuel v + objFuel t := by omega
      simp only [jsonFuel, objFuel, dumpsChars, List.length_cons, List.length_append,
        List.length_singleton]
      omega

theorem arrFuel_le (xs : JsonArr) : arrFuel xs ≤ 2 * (dumpsArrTail xs).length + 2 := by
  cases xs with
  | nil => simp [arrFuel]
  | cons x t =>
    have h1 := jsonFuel_le x
    have h2 := arrFuel_le t
    have h5 : max (jsonFuel x) (arrFuel t) ≤ jsonFuel x + arrFuel t := by omega
    simp only [arrFuel, dumpsArrTail, List.length_cons, List.length_append]
    omega

theorem objFuel_le (kvs : JsonObj) : objFuel kvs ≤ 2 * (dumpsObjTail kvs).length + 2 := by
  cases kvs with
  | nil => simp [objFuel]
  | cons k v t =>
    have h1 := jsonFuel_le v
    have h2 := objFuel_le t
    have h5 : max (jsonFuel v) (objFuel t) ≤ jsonFuel v + objFuel t := by omega
    simp only [objFuel, dumpsObjTail, List.length_cons, List.length_append]
    omega
end

theorem skipWs_ws_cons {c : Char} (l : List Char) (h : isJsonWs c = true) :
    skipWs (c :: l) = skipWs l := by
  simp [skipWs, h]

theorem parseVal_ws (fuel : Nat) {c : Char} (l : List Char) (h : isJsonWs c = true) :
    parseVal (fuel + 1) (c :: l) = parseVal (fuel + 1) l := by
  rw [parseVal.eq_def, parseVal.eq_def]
  simp only [skipWs_ws_cons l h]

/-- The first character of a serialized value: never whitespace, never a
closing bracket, so the junction with the surrounding syntax is unambiguous. -/
theorem dumpsChars_head (v : Json) :
    ∃ c t, dumpsChars v = c :: t ∧ isJsonWs c = false ∧ c ≠ ']' := by
  cases v with
  | null => exact ⟨'n', _, rfl, by decide, by decide⟩
  | bool b => cases b with
    | true => exact ⟨'t', _, rfl, by decide, by decide⟩
    | false => exact ⟨'f', _, rfl, by decide, by decide⟩
  | num n =>
    cases n with
    | ofNat m =>
      obtain ⟨_, _, d, t, hsh, hd, _⟩ := natDigitsAux_facts m m le_rfl
      refine ⟨d, t, ?_, isDigit_not_ws hd, ?_⟩
      · show intChars (.ofNat m) = _
        simpa [intChars, natDigits] using hsh
      · simp only [isDigitChar, Bool.and_eq_true, decide_eq_true_eq] at hd
        exact char_ne_of_toNat_ne (by rw [show (']').toNat = 93 from by decide]; omega)
    | negSucc m => exact ⟨'-', _, rfl, by decide, by decide⟩
  | str s => exact ⟨quoteChar, _, rfl, by decide, by decide⟩
  | arr xs => cases xs with
    | nil => exact ⟨'[', _, rfl, by decide, by decide⟩
    | cons x t => exact ⟨'[', _, rfl, by decide, by decide⟩
  | obj kvs => cases kvs with
    | nil => exact ⟨lbraceChar, _, rfl, by decide, by decide⟩
    | cons k v t => exact ⟨lbraceChar, _, rfl, by decide, by decide⟩

/-- A digit head takes none of the other scanner branches. -/
theorem digit_head_facts {d : Char} (hd : isDigitChar d = true) :
    d ≠ quoteChar ∧ d ≠ '[' ∧ d ≠ lbraceChar ∧ d ≠ 'n' ∧ d ≠ 't' ∧ d ≠ 'f' := by
  simp only [isDigitChar, Bool.and_eq_true, decide_eq_true_eq] at hd
  refine ⟨?_, ?_, ?_, ?_, ?_, ?_⟩
  · exact char_ne_of_toNat_ne (by rw [show quoteChar.toNat = 34 from by decide]; omega)
  · exact char_ne_of_toNat_ne (by rw [show ('[').toNat = 91 from by decide]; omega)
  · exact char_ne_of_toNat_ne (by rw [show lbraceChar.toNat = 123 from by decide]; omega)
  · exact char_ne_of_toNat_ne (by rw [show ('n').toNat = 110 from by decide]; omega)
  · exact char_ne_of_toNat_ne (by rw [show ('t').toNat = 116 from by decide]; omega)
  · exact char_ne_of_toNat_ne (by rw [show ('f').toNat = 102 from by decide]; omega)

theorem arrTail_delim (xs : JsonArr) (rest : List Char) :
    numDelim (dumpsArrTail xs ++ ']' :: rest) = true := by
  cases xs with
  | nil => simp +decide [dumpsArrTail, numDelim]
  | cons x t => simp +decide [dumpsArrTail, numDelim]

theorem objTail_delim (kvs : JsonObj) (rest : List Char) :
    numDelim (dumpsObjTail kvs ++ rbraceChar :: rest) = true := by
  cases kvs with
  | nil => simp +decide [dumpsObjTail, numDelim]
  | cons k v t => simp +decide [dumpsObjTail, numDelim]

theorem parseVal_succ (fuel : Nat) (cs : List Char) :
    parseVal (fuel + 1) cs = (match skipWs cs with
    | [] => none
    | c :: rest =>
      if c = quoteChar then
        (parseStrBody rest).map (fun p => (Json.str (String.mk p.1), p.2))
      else if c = '[' then parseArrRest fuel rest
      else if c = lbraceChar then parseObjRest fuel rest
      else if c = 'n' then
        if rest.take 3 = ['u', 'l', 'l'] then some (Json.null, rest.drop 3) else none
      else if c = 't' then
        if rest.take 3 = ['r', 'u', 'e'] then some (Json.bool true, rest.drop 3)
        else none
      else if c = 'f' then
        if rest.take 4 = ['a', 'l', 's', 'e'] then some (Json.bool false, rest.drop 4)
        else none
      else if c = '-' || isDigitChar c then parseNumber (c :: rest)
      else none) := rfl

theorem parseArrRest_succ (fuel : Nat) (cs : List Char) :
    parseArrRest (fuel + 1) cs = (match skipWs cs with
    | [] => none
    | c :: rest =>
      if c = ']' then some (Json.arr .nil, rest)
      else
        match parseVal fuel (c :: rest) with
        | some (v, r1) =>
          match parseArrTail fuel r1 with
          | some (t, r2) => some (Json.arr (.cons v t), r2)
          | none => none
        | none => none) := rfl

theorem parseArrTail_succ (fuel : Nat) (cs : List Char) :
    parseArrTail (fuel + 1) cs = (match skipWs cs with
    | [] => none
    | c :: rest =>
      if c = ']' then some (JsonArr.nil, rest)
      else if c = ',' then
        match parseVal fuel rest with
        | some (v, r1) =>
          match parseArrTail fuel r1 with
          | some (t, r2) => some (JsonArr.cons v t, r2)
          | none => none
        | none => none
      else none) := rfl

theorem parseObjRest_succ (fuel : Nat) (cs : List Char) :
    parseObjRest (fuel + 1) cs = (match skipWs cs with
    | [] => none
    | c :: rest =>
      if c = rbraceChar then some (Json.obj .nil, rest)
      else if c = quoteChar then
        match parseStrBody rest with
        | some (k, r1) =>
          match skipWs r1 with
          | ':' :: r2 =>
            match parseVal fuel r2 with
            | some (v, r3) =>
              match parseObjTail fuel r3 with
              | some (t, r4) => some (Json.obj (.cons (String.mk k) v t), r4)
              | none => none
            | none => none
          | _ => none
        | none => none
      else none) := rfl

theorem parseObjTail_succ (fuel : Nat) (cs : List Char) :
    parseObjTail (fuel + 1) cs = (match skipWs cs with
    | [] => none
    | c :: rest =>
      if c = rbraceChar then some (JsonObj.nil, rest)
      else if c = ',' then
        match skipWs rest with
        | c' :: rest' =>
          if c' = quoteChar then
            match parseStrBody rest' with
            | some (k, r1) =>
              match skipWs r1 with
              | ':' :: r2 =>
                match parseVal fuel r2 with
                | some (v, r3) =>
                  match parseObjTail fuel r3 with
                  | some (t, r4) => some (JsonObj.cons (String.mk k) v t, r4)
                  | none => none
                | none => none
              | _ => none
            | none => none
          else none
        | [] => none
      else none) := rfl

/-- Core round trip: with enough fuel, parsing a serialized value (followed
by any syntactically neutral remainder) returns exactly that value and the
remainder.  Proved by strong induction on the fuel, mutually for values,
array tails and object tails. -/
theorem parse_dumps (fuel : Nat) :
    (∀ v rest, jsonFuel v < fuel → numDelim rest = true →
      parseVal fuel (dumpsChars v ++ rest) = some (v, rest)) ∧
    (∀ xs rest, arrFuel xs < fuel →
      parseArrTail fuel (dumpsArrTail xs ++ ']' :: rest) = some (xs, rest)) ∧
    (∀ kvs rest, objFuel kvs < fuel →
      parseObjTail fuel (dumpsObjTail kvs ++ rbraceChar :: rest) = some (kvs, rest)) := by
  induction fuel using Nat.strong_induction_on with
  | _ fuel ih =>
    refine ⟨?_, ?_, ?_⟩
    · intro v rest hf hrest
      obtain ⟨f1, rfl⟩ : ∃ f1, fuel = f1 + 1 := ⟨fuel - 1, by omega⟩
      cases v with
      | null =>
        show parseVal (f1 + 1) ('n' :: 'u' :: 'l' :: 'l' :: rest) = _
        rw [parseVal_succ, skipWs_cons _ (by decide)]
        simp +decide
      | bool b =>
        cases b with
        | true =>
          show parseVal (f1 + 1) ('t' :: 'r' :: 'u' :: 'e' :: rest) = _
          rw [parseVal_succ, skipWs_cons _ (by decide)]
          simp +decide
        | false =>
          show parseVal (f1 + 1) ('f' :: 'a' :: 'l' :: 's' :: 'e' :: rest) = _
          rw [parseVal_succ, skipWs_cons _ (by decide)]
          simp +decide
      | num n =>
        have hpn := parseNumber_intChars n rest hrest
        cases n with
        | ofNat m =>
          obtain ⟨hall, hnum, d, t, hsh, hd, hd0⟩ := natDigitsAux_facts m m le_rfl
          obtain ⟨hq, hlb, hbr, hn, ht, hf'⟩ := digit_head_facts hd
          have hws := isDigit_not_ws hd
          have hic : intChars (.ofNat m) = d :: t := by
            simpa [intChars, natDigits] using hsh
          show parseVal (f1 + 1) (intChars (.ofNat m) ++ rest) = _
          rw [hic] at hpn ⊢
          rw [parseVal_succ]
          rw [List.cons_append, skipWs_cons _ hws]
          simp only [if_neg hq, if_neg hlb, if_neg hbr, if_neg hn, if_neg ht,
            if_neg hf', hd, Bool.or_true, if_true, reduceIte]
          rw [← List.cons_append]
          exact hpn
        | negSucc m =>
          show parseVal (f1 + 1) ('-' :: (natDigits (m + 1) ++ rest)) = _
          rw [parseVal_succ, skipWs_cons _ (by decide)]
          simp +decide only [if_true, if_false, reduceIte]
          exact hpn
      | str s =>
        show parseVal (f1 + 1)
          ((quoteChar :: (s.data.flatMap escChar ++ [quoteChar])) ++ rest) = _
        rw [parseVal_succ]
        rw [List.cons_append, skipWs_cons _ (by decide)]
        simp only [if_pos rfl]
        rw [List.append_assoc]
        rw [show [quoteChar] ++ rest = quoteChar :: rest from rfl]
        rw [parseStrBody_escChar]
        rfl
      | arr xs =>
        have hf4 : 4 ≤ jsonFuel (.arr xs) := by
          cases xs <;> simp [jsonFuel, arrFuel]
        obtain ⟨f2, rfl⟩ : ∃ f2, f1 = f2 + 1 := ⟨f1 - 1, by omega⟩
        cases xs with
        | nil =>
          show parseVal (f2 + 1 + 1) ('[' :: ']' :: rest) = _
          rw [parseVal_succ, skipWs_cons _ (by decide)]
          simp +decide only [if_true, if_false, reduceIte]
          rw [parseArrRest_succ, skipWs_cons _ (by decide)]
          simp +decide
        | cons x t =>
          have hmax1 := le_max_left (jsonFuel x) (arrFuel t)
          have hmax2 := le_max_right (jsonFuel x) (arrFuel t)
          have hsz : jsonFuel (.arr (.cons x t)) =
              max (jsonFuel x) (arrFuel t) + 4 := by
            simp [jsonFuel, arrFuel]
          rw [hsz] at hf
          have hfx : jsonFuel x < f2 := by omega
          have hft : arrFuel t < f2 := by omega
          obtain ⟨c0, t0, hh, hws0, hnb⟩ := dumpsChars_head x
          show parseVal (f2 + 1 + 1)
            (('[' :: ((dumpsChars x ++ dumpsArrTail t) ++ [']'])) ++ rest) = _
          rw [parseVal_succ]
          rw [List.cons_append, skipWs_cons _ (by decide)]
          simp +decide only [if_true, if_false, reduceIte]
          rw [parseArrRest_succ]
          have hA : ((dumpsChars x ++ dumpsArrTail t) ++ [']']) ++ rest
              = dumpsChars x ++ (dumpsArrTail t ++ (']' :: rest)) := by
            simp [List.append_assoc]
          rw [hA, hh, List.cons_append, skipWs_cons _ hws0]
          simp only [if_neg hnb]
          rw [← List.cons_append, ← hh]
          have hx := (ih f2 (by omega)).1 x (dumpsArrTail t ++ ']' :: rest)
            (by omega) (arrTail_delim t rest)
          have ht2 := (ih f2 (by omega)).2.1 t rest (by omega)
          simp +decide [hx, ht2]
      | obj kvs =>
        have hf4 : 4 ≤ jsonFuel (.obj kvs) := by
          cases kvs <;> simp [jsonFuel, objFuel]
        obtain ⟨f2, rfl⟩ : ∃ f2, f1 = f2 + 1 := ⟨f1 - 1, by omega⟩
        cases kvs with
        | nil =>
          show parseVal (f2 + 1 + 1) (lbraceChar :: rbraceChar :: rest) = _
          rw [parseVal_succ, skipWs_cons _ (by decide)]
          simp +decide only [if_true, if_false, reduceIte]
          rw [parseObjRest_succ, skipWs_cons _ (by decide)]
          simp +decide
        | cons k v t =>
          have hmax1 := le_max_left (jsonFuel v) (objFuel t)
          have hmax2 := le_max_right (jsonFuel v) (objFuel t)
          have hsz : jsonFuel (.obj (.cons k v t)) =
              max (jsonFuel v) (objFuel t) + 4 := by
            simp [jsonFuel, objFuel]
          rw [hsz] at hf
          have hfv : jsonFuel v < f2 := by omega
          have hft : objFuel t < f2 := by omega
          obtain ⟨f3, rfl⟩ : ∃ f3, f2 = f3 + 1 := ⟨f2 - 1, by omega⟩
          show parseVal (f3 + 1 + 1 + 1)
            ((lbraceChar :: ((strLit k ++ ':' :: ' ' :: dumpsChars v ++ dumpsObjTail t)
              ++ [rbraceChar])) ++ rest) = _
          rw [parseVal_succ]
          rw [List.cons_append, skipWs_cons _ (by decide)]
          simp +decide only [if_true, if_false, reduceIte]
          rw [parseObjRest_succ]
          have hA : ((strLit k ++ ':' :: ' ' :: dumpsChars v ++ dumpsObjTail t)
                ++ [rbraceChar]) ++ rest
              = quoteChar :: (k.data.flatMap escChar ++ quoteChar ::
                  (':' :: ' ' :: (dumpsChars v ++
                    (dumpsObjTail t ++ (rbraceChar :: rest))))) := by
            simp [strLit, List.append_assoc]
          rw [hA, skipWs_cons _ (by decide)]
          simp +decide only [if_true, if_false, reduceIte]
          rw [parseStrBody_escChar]
          have hv := (ih (f3 + 1) (by omega)).1 v
            (dumpsObjTail t ++ rbraceChar :: rest) (by omega) (objTail_delim t rest)
          have ht2 := (ih (f3 + 1) (by omega)).2.2 t rest (by omega)
          have hws' : parseVal (f3 + 1)
              (' ' :: (dumpsChars v ++ (dumpsObjTail t ++ rbraceChar :: rest)))
              = some (v, dumpsObjTail t ++ rbraceChar :: rest) := by
            rw [parseVal_ws _ _ (by decide)]
            exact hv
          simp +decide [skipWs_cons _ (show isJsonWs ':' = false from by decide),
            hws', ht2]
    · intro xs rest hf
      obtain ⟨g, rfl⟩ : ∃ g, fuel = g + 1 := ⟨fuel - 1, by omega⟩
      cases xs with
      | nil =>
        show parseArrTail (g + 1) (']' :: rest) = _
        rw [parseArrTail_succ, skipWs_cons _ (by decide)]
        simp +decide
      | cons x t =>
        have hmax1 := le_max_left (jsonFuel x) (arrFuel t)
        have hmax2 := le_max_right (jsonFuel x) (arrFuel t)
        have hsz : arrFuel (.cons x t) = max (jsonFuel x) (arrFuel t) + 1 := by
          simp [arrFuel]
        rw [hsz] at hf
        have h1 : 1 ≤ jsonFuel x := by cases x <;> simp [jsonFuel]
        obtain ⟨g2, rfl⟩ : ∃ g2, g = g2 + 1 := ⟨g - 1, by omega⟩
        show parseArrTail (g2 + 1 + 1)
          ((',' :: ' ' :: dumpsChars x ++ dumpsArrTail t) ++ ']' :: rest) = _
        rw [parseArrTail_succ]
        have hA : (',' :: ' ' :: dumpsChars x ++ dumpsArrTail t) ++ ']' :: rest
            = ',' :: ' ' :: (dumpsChars x ++ (dumpsArrTail t ++ ']' :: rest)) := by
          simp [List.append_assoc]
        rw [hA, skipWs_cons _ (by decide)]
        simp +decide only [if_true, if_false, reduceIte]
        have hx : parseVal (g2 + 1)
            (' ' :: (dumpsChars x ++ (dumpsArrTail t ++ ']' :: rest)))
            = some (x, dumpsArrTail t ++ ']' :: rest) := by
          rw [parseVal_ws _ _ (by decide)]
          exact (ih (g2 + 1) (by omega)).1 x (dumpsArrTail t ++ ']' :: rest)
            (by omega) (arrTail_delim t rest)
        have ht2 := (ih (g2 + 1) (by omega)).2.1 t rest (by omega)
        simp +decide [hx, ht2]
    · intro kvs rest hf
      obtain ⟨g, rfl⟩ : ∃ g, fuel = g + 1 := ⟨fuel - 1, by omega⟩
      cases kvs with
      | nil =>
        show parseObjTail (g + 1) (rbraceChar :: rest) = _
        rw [parseObjTail_succ, skipWs_cons _ (by decide)]
        simp +decide
      | cons k v t =>
        have hmax1 := le_max_left (jsonFuel v) (objFuel t)
        have hmax2 := le_max_right (jsonFuel v) (objFuel t)
        have hsz : objFuel (.cons k v t) = max (jsonFuel v) (objFuel t) + 1 := by
          simp [objFuel]
        rw [hsz] at hf
        have h1 : 1 ≤ jsonFuel v := by cases v <;> simp [jsonFuel]
        obtain ⟨g2, rfl⟩ : ∃ g2, g = g2 + 1 := ⟨g - 1, by omega⟩
        show parseObjTail (g2 + 1 + 1)
          ((',' :: ' ' :: (strLit k ++ ':' :: ' ' :: dumpsChars v) ++ dumpsObjTail t)
            ++ rbraceChar :: rest) = _
        rw [parseObjTail_succ]
        have hA : (',' :: ' ' :: (strLit k ++ ':' :: ' ' :: dumpsChars v)
              ++ dumpsObjTail t) ++ rbraceChar :: rest
            = ',' :: ' ' :: (quoteChar :: (k.data.flatMap escChar ++ quoteChar ::
                (':' :: ' ' :: (dumpsChars v ++
                  (dumpsObjTail t ++ (rbraceChar :: rest)))))) := by
          simp [strLit, List.append_assoc]
        rw [hA, skipWs_cons _ (by decide)]
        simp +decide only [if_true, if_false, reduceIte]
        rw [skipWs_ws_cons _ (by decide), skipWs_cons _ (by decide)]
        simp +decide only [if_true, if_false, reduceIte]
        rw [parseStrBody_escChar]
        have hv : parseVal (g2 + 1)
            (' ' :: (dumpsChars v ++ (dumpsObjTail t ++ rbraceChar :: rest)))
            = some (v, dumpsObjTail t ++ rbraceChar :: rest) := by
          rw [parseVal_ws _ _ (by decide)]
          exact (ih (g2 + 1) (by omega)).1 v (dumpsObjTail t ++ rbraceChar :: rest)
            (by omega) (objTail_delim t rest)
        have ht2 := (ih (g2 + 1) (by omega)).2.2 t rest (by omega)
        simp +decide [skipWs_cons _ (show isJsonWs ':' = false from by decide),
          hv, ht2]

/-- The parser inverts the serializer: `json.loads(json.dumps(v)) = v` on
the modelled fragment. -/
theorem loads_dumps (v : Json) : loadsChars (dumpsChars v) = some v := by
  unfold loadsChars
  have hb := jsonFuel_le v
  have h := (parse_dumps (2 * (dumpsChars v).length + 4)).1 v [] (by omega) rfl
  rw [List.append_nil] at h
  rw [h]
  rfl

/-! ## UTF-8

`send_message` writes `json.dumps(...).encode("utf-8")` and `read_message`
applies `bytes.decode("utf-8")` (strict) before `json.loads`.  Bytes are
modelled as `Nat` below 256. -/

/-- UTF-8 encoding of one Unicode scalar value. -/
def utf8EncodeChar (c : Char) : List Nat :=
  if c.toNat < 128 then [c.toNat]
  else if c.toNat < 2048 then [192 + c.toNat / 64, 128 + c.toNat % 64]
  else if c.toNat < 65536 then
    [224 + c.toNat / 4096, 128 + c.toNat / 64 % 64, 128 + c.toNat % 64]
  else
    [240 + c.toNat / 262144, 128 + c.toNat / 4096 % 64, 128 + c.toNat / 64 % 64,
      128 + c.toNat % 64]

/-- `str.encode("utf-8")`. -/
def utf8Encode (cs : List Char) : List Nat := cs.flatMap utf8EncodeChar

/-- Two-byte sequence: one continuation byte after lead `b`. -/
def utf8Dec2 (b : Nat) : List Nat → Option (Char × List Nat)
  | b1 :: t1 =>
    if 128 ≤ b1 ∧ b1 < 192 then
      some (Char.ofNat ((b - 192) * 64 + (b1 - 128)), t1)
    else none
  | [] => none

/-- Three-byte sequence: two continuation bytes after lead `b`; overlong
forms and surrogates are rejected. -/
def utf8Dec3 (b : Nat) : List Nat → Option (Char × List Nat)
  | b1 :: b2 :: t2 =>
    if 128 ≤ b1 ∧ b1 < 192 ∧ 128 ≤ b2 ∧ b2 < 192 then
      if (b - 224) * 4096 + (b1 - 128) * 64 + (b2 - 128) < 2048 ∨
          (55296 ≤ (b - 224) * 4096 + (b1 - 128) * 64 + (b2 - 128) ∧
            (b - 224) * 4096 + (b1 - 128) * 64 + (b2 - 128) ≤ 57343) then none
      else some (Char.ofNat ((b - 224) * 4096 + (b1 - 128) * 64 + (b2 - 128)), t2)
    else none
  | _ => none

/-- Four-byte sequence: three continuation bytes after lead `b`; overlong
forms and values beyond U+10FFFF are rejected. -/
def utf8Dec4 (b : Nat) : List Nat → Option (Char × List Nat)
  | b1 :: b2 :: b3 :: t3 =>
    if 128 ≤ b1 ∧ b1 < 192 ∧ 128 ≤ b2 ∧ b2 < 192 ∧ 128 ≤ b3 ∧ b3 < 192 then
      if (b - 240) * 262144 + (b1 - 128) * 4096 + (b2 - 128) * 64 + (b3 - 128) < 65536 ∨
          1114111 < (b - 240) * 262144 + (b1 - 128) * 4096 + (b2 - 128) * 64 + (b3 - 128)
        then none
      else some (Char.ofNat
        ((b - 240) * 262144 + (b1 - 128) * 4096 + (b2 - 128) * 64 + (b3 - 128)), t3)
    else none
  | _ => none

/-- Decode one UTF-8-encoded scalar value from the head of the byte stream
(strict mode: bad lead or continuation bytes, overlong forms, surrogates
and values beyond U+10FFFF are rejected). -/
def utf8DecodeOne : List Nat → Option (Char × List Nat)
  | [] => none
  | b :: t =>
    if b < 128 then some (Char.ofNat b, t)
    else if b < 194 then none
    else if b < 224 then utf8Dec2 b t
    else if b < 240 then utf8Dec3 b t
    else if b < 245 then utf8Dec4 b t
    else none

/-- Decode a whole byte string, fueled (each scalar consumes at least one
byte, so fuel equal to the length always suffices). -/
def utf8DecodeAux : Nat → List Nat → Option (List Char)
  | _, [] => some []
  | 0, _ :: _ => none
  | fuel + 1, b :: t =>
    match utf8DecodeOne (b :: t) with
    | some (c, rest) => (utf8DecodeAux fuel rest).map (fun l => c :: l)
    | none => none

/-- `bytes.decode("utf-8")` (strict). -/
def utf8Decode (bs : List Nat) : Option (List Char) := utf8DecodeAux bs.length bs

theorem char_valid_nat (c : Char) :
    c.toNat < 55296 ∨ (57343 < c.toNat ∧ c.toNat < 1114112) := by
  have h := c.valid
  unfold UInt32.isValidChar Nat.isValidChar at h
  exact h

theorem utf8DecodeOne_encode (c : Char) (rest : List Nat) :
    utf8DecodeOne (utf8EncodeChar c ++ rest) = some (c, rest) := by
  have hv := char_valid_nat c
  by_cases h1 : c.toNat < 128
  · simp only [utf8EncodeChar, if_pos h1, List.cons_append, List.nil_append]
    rw [utf8DecodeOne]
    rw [if_pos h1, Char.ofNat_toNat]
  by_cases h2 : c.toNat < 2048
  · simp only [utf8EncodeChar, if_neg h1, if_pos h2, List.cons_append, List.nil_append]
    rw [utf8DecodeOne]
    rw [if_neg (by omega), if_neg (by omega), if_pos (by omega)]
    rw [utf8Dec2]
    rw [if_pos (by constructor <;> omega)]
    have he : (192 + c.toNat / 64 - 192) * 64 + (128 + c.toNat % 64 - 128)
        = c.toNat := by omega
    rw [he, Char.ofNat_toNat]
  by_cases h3 : c.toNat < 65536
  · simp only [utf8EncodeChar, if_neg h1, if_neg h2, if_pos h3, List.cons_append,
      List.nil_append]
    rw [utf8DecodeOne]
    rw [if_neg (by omega), if_neg (by omega), if_neg (by omega), if_pos (by omega)]
    rw [utf8Dec3]
    rw [if_pos (by refine ⟨by omega, by omega, by omega, by omega⟩)]
    have he : (224 + c.toNat / 4096 - 224) * 4096 + (128 + c.toNat / 64 % 64 - 128) * 64
        + (128 + c.toNat % 64 - 128) = c.toNat := by omega
    rw [he]
    rw [if_neg (by omega), Char.ofNat_toNat]
  · simp only [utf8EncodeChar, if_neg h1, if_neg h2, if_neg h3, List.cons_append,
      List.nil_append]
    have hub : c.toNat < 1114112 := by omega
    rw [utf8DecodeOne]
    rw [if_neg (by omega), if_neg (by omega), if_neg (by omega), if_neg (by omega),
      if_pos (by omega)]
    rw [utf8Dec4]
    rw [if_pos (by refine ⟨by omega, by omega, by omega, by omega, by omega, by omega⟩)]
    have he : (240 + c.toNat / 262144 - 240) * 262144 + (128 + c.toNat / 4096 % 64 - 128)
        * 4096 + (128 + c.toNat / 64 % 64 - 128) * 64 + (128 + c.toNat % 64 - 128)
        = c.toNat := by omega
    rw [he]
    rw [if_neg (by omega), Char.ofNat_toNat]

theorem utf8EncodeChar_ne_nil (c : Char) : utf8EncodeChar c ≠ [] := by
  unfold utf8EncodeChar
  split
  · simp
  · split
    · simp
    · split <;> simp

theorem utf8EncodeChar_length_pos (c : Char) : 1 ≤ (utf8EncodeChar c).length := by
  unfold utf8EncodeChar
  split
  · simp
  · split
    · simp
    · split <;> simp

theorem utf8DecodeAux_encode :
    ∀ (cs : List Char) (fuel : Nat), cs.length ≤ fuel →
      utf8DecodeAux fuel (utf8Encode cs) = some cs
  | [], fuel, _ => by cases fuel <;> rfl
  | c :: cs, fuel, h => by
    have hlen : cs.length + 1 ≤ fuel := by simpa using h
    obtain ⟨f, rfl⟩ : ∃ f, fuel = f + 1 := ⟨fuel - 1, by omega⟩
    have ih := utf8DecodeAux_encode cs f (by omega)
    have hone := utf8DecodeOne_encode c (utf8Encode cs)
    show utf8DecodeAux (f + 1) (utf8EncodeChar c ++ utf8Encode cs) = _
    cases he : utf8EncodeChar c with
    | nil => exact absurd he (utf8EncodeChar_ne_nil c)
    | cons a l =>
      rw [he] at hone
      show utf8DecodeAux (f + 1) (a :: (l ++ utf8Encode cs)) = _
      rw [utf8DecodeAux]
      rw [show a :: (l ++ utf8Encode cs) = (a :: l) ++ utf8Encode cs from rfl, hone]
      simp [ih]

/-- Decoding inverts encoding: `s.encode("utf-8").decode("utf-8") = s`. -/
theorem utf8_roundtrip (cs : List Char) : utf8Decode (utf8Encode cs) = some cs := by
  unfold utf8Decode
  apply utf8DecodeAux_encode
  induction cs with
  | nil => simp [utf8Encode]
  | cons c t ih =>
    show t.length + 1 ≤ (utf8EncodeChar c ++ utf8Encode t).length
    have h1 := utf8EncodeChar_length_pos c
    simp only [List.length_append]
    omega

theorem utf8Encode_cons_ne_nil (c : Char) (cs : List Char) :
    utf8Encode (c :: cs) ≠ [] := by
  show utf8EncodeChar c ++ utf8Encode cs ≠ []
  have := utf8EncodeChar_ne_nil c
  cases h : utf8EncodeChar c with
  | nil => exact absurd h this
  | cons a l => simp [h]

/-! ## Wire framing: `read_message` / `send_message`

The stdio stream is modelled as the list of chunks that successive
`os.read` calls deliver.  `os.read` returns at most the requested number of
bytes and never spans a chunk boundary (pipes may short-read); an exhausted
stream yields the empty read that Python treats as end-of-file. -/

abbrev ByteStream := List (List Nat)

/-- `os.read(fd, n)`. -/
def osRead : ByteStream → Nat → List Nat × ByteStream
  | [], _ => ([], [])
  | c :: cs, n => if c.length ≤ n then (c, cs) else (c.take n, c.drop n :: cs)

/-- The `while bytes_to_read > 0` payload loop of `read_message`, fueled
(each successful read delivers at least one byte, so fuel equal to the
requested count always suffices). -/
def readLoopAux : Nat → Nat → ByteStream → List Nat × ByteStream
  | _, 0, s => ([], s)
  | 0, _ + 1, s => ([], s)
  | fuel + 1, n + 1, s =>
    if (osRead s (n + 1)).1 = [] then ([], (osRead s (n + 1)).2)
    else
      ((osRead s (n + 1)).1 ++
        (readLoopAux fuel (n + 1 - (osRead s (n + 1)).1.length) (osRead s (n + 1)).2).1,
        (readLoopAux fuel (n + 1 - (osRead s (n + 1)).1.length) (osRead s (n + 1)).2).2)

/-- Accumulate exactly `n` payload bytes, or fewer at end of stream. -/
def readLoop (n : Nat) (s : ByteStream) : List Nat × ByteStream := readLoopAux n n s

/-- `struct.unpack("<I", bs)[0]` of a 4-byte little-endian prefix. -/
def le4 (bs : List Nat) : Nat :=
  match bs with
  | [b0, b1, b2, b3] => b0 + 256 * b1 + 65536 * b2 + 16777216 * b3
  | _ => 0

/-- `struct.pack("<I", n)` for `n` below `2 ^ 32`. -/
def pack4 (n : Nat) : List Nat :=
  [n % 256, n / 256 % 256, n / 65536 % 256, n / 16777216 % 256]

theorem le4_pack4 (n : Nat) (h : n < 4294967296) : le4 (pack4 n) = n := by
  simp only [le4, pack4]
  omega

def isObj : Json → Bool
  | .obj _ => true
  | _ => false

/-- `NativeHost.read_message`: read the 4-byte length prefix with a single
`os.read`, validate the advertised length, read the payload with the
accumulation loop, UTF-8-decode and JSON-parse it, and require a JSON
object.  Every failure returns `none` (the code logs and returns `None`);
the second component is the stream as left after the reads performed. -/
def read_message (s : ByteStream) : Option Json × ByteStream :=
  if (osRead s 4).1.length < 4 then (none, (osRead s 4).2)
  else if le4 (osRead s 4).1 = 0 ∨ 1048576 < le4 (osRead s 4).1 then
    (none, (osRead s 4).2)
  else
    if (readLoop (le4 (osRead s 4).1) (osRead s 4).2).1.length ≠ le4 (osRead s 4).1 then
      (none, (readLoop (le4 (osRead s 4).1) (osRead s 4).2).2)
    else
      match utf8Decode (readLoop (le4 (osRead s 4).1) (osRead s 4).2).1 with
      | none => (none, (readLoop (le4 (osRead s 4).1) (osRead s 4).2).2)
      | some chars =>
        match loadsChars chars with
        | none => (none, (readLoop (le4 (osRead s 4).1) (osRead s 4).2).2)
        | some v =>
          if isObj v then (some v, (readLoop (le4 (osRead s 4).1) (osRead s 4).2).2)
          else (none, (readLoop (le4 (osRead s 4).1) (osRead s 4).2).2)

/-- The two `os.write` calls of `send_message` for a message `m`: the
4-byte little-endian length of the UTF-8 JSON, then that JSON itself. -/
def wireFrames (m : Json) : ByteStream :=
  [pack4 (utf8Encode (dumpsChars m)).length, utf8Encode (dumpsChars m)]

theorem readLoop_single_chunk (d : List Nat) (n : Nat) (h : d.length = n)
    (h1 : 1 ≤ n) : readLoop n [d] = (d, []) := by
  obtain ⟨m, rfl⟩ : ∃ m, n = m + 1 := ⟨n - 1, by omega⟩
  show readLoopAux (m + 1) (m + 1) [d] = (d, [])
  rw [readLoopAux]
  have hr : osRead [d] (m + 1) = (d, []) := by
    simp [osRead, h]
  rw [hr]
  have hne : d ≠ [] := by
    intro he; rw [he] at h; simp at h
  simp only [if_neg hne, h, Nat.sub_self]
  cases m <;> simp [readLoopAux]

theorem readLoopAux_take :
    ∀ (fuel n : Nat) (s : ByteStream), n ≤ fuel → (∀ c ∈ s, c ≠ []) →
      n ≤ s.flatten.length → (readLoopAux fuel n s).1 = s.flatten.take n
  | fuel, 0, s, _, _, _ => by cases fuel <;> simp [readLoopAux]
  | fuel, n + 1, s, hfuel, hne, hlen => by
    obtain ⟨f, rfl⟩ : ∃ f, fuel = f + 1 := ⟨fuel - 1, by omega⟩
    cases s with
    | nil => simp at hlen
    | cons c cs =>
      have hcne : c ≠ [] := hne c (by simp)
      have hclen : 1 ≤ c.length := by
        cases c with
        | nil => exact absurd rfl hcne
        | cons a l => simp
      rw [readLoopAux]
      by_cases hle : c.length ≤ n + 1
      · have hr : osRead (c :: cs) (n + 1) = (c, cs) := by simp [osRead, hle]
        rw [hr]
        simp only [if_neg hcne]
        have hrec := readLoopAux_take f (n + 1 - c.length) cs (by omega)
          (fun d hd => hne d (by simp [hd]))
          (by simp only [List.flatten_cons, List.length_append] at hlen; omega)
        rw [hrec]
        rw [List.flatten_cons, List.take_append_eq_append_take,
          List.take_of_length_le hle]
      · have hr : osRead (c :: cs) (n + 1) = (c.take (n + 1), c.drop (n + 1) :: cs) := by
          simp [osRead, hle]
        rw [hr]
        have htne : c.take (n + 1) ≠ [] := by
          have : (c.take (n + 1)).length = n + 1 := by
            rw [List.length_take]; omega
          intro he; rw [he] at this; simp at this
        simp only [if_neg htne]
        have hlt : (c.take (n + 1)).length = n + 1 := by
          rw [List.length_take]; omega
        rw [hlt, Nat.sub_self]
        have : readLoopAux f 0 (c.drop (n + 1) :: cs) = ([], c.drop (n + 1) :: cs) := by
          cases f <;> simp [readLoopAux]
        rw [this]
        rw [List.flatten_cons, List.take_append_eq_append_take]
        have h0 : n + 1 - c.length = 0 := by omega
        simp [h0]

/-! ## Host state, queue filesystem and dispatch

`NativeHost` keeps `_connected`, `_last_send_error` and the `_inflight`
map in memory; the queue lives in the `jobs/`, `processing/` and
`results/` directories.  Directories are modelled as association lists
(`jobs`/`processing` keyed by file name, `results` keyed by job id, since
the host always writes results files keyed by id).  `extFiles` models the rest
of the filesystem as seen by the `getFileData` proxy.  Outcomes of OS
calls the host cannot control - whether `os.write` to the peer fails and
whether `os.replace` succeeds - enter as explicit oracle arguments. -/

structure HostState where
  connected : Bool
  lastSendError : Option String
  inflight : List (String × String)
  deriving DecidableEq

structure FSState where
  jobs : List (String × Json)
  processing : List (String × Json)
  results : List (String × Json)
  extFiles : List (String × List Nat)
  deriving DecidableEq

/-- Create or overwrite a file (dict-like: replace in place or append). -/
def setKey {β : Type} : List (String × β) → String → β → List (String × β)
  | [], k, v => [(k, v)]
  | (k', v') :: t, k, v =>
    if k' = k then (k, v) :: t else (k', v') :: setKey t k v

/-- `os.remove`: drop the binding for a key. -/
def eraseKey {β : Type} : List (String × β) → String → List (String × β)
  | [], _ => []
  | (k', v') :: t, k => if k' = k then t else (k', v') :: eraseKey t k

/-- `os.path.join(self.processing_dir, f"(id).json")`, with the queue root
abbreviated away. -/
def processingPathOf (id : String) : String := "processing/" ++ id ++ ".json"

/-- `os.path.join(self.jobs_dir, fname)`. -/
def jobsPathOf (fname : String) : String := "jobs/" ++ fname

def startsWithM (s pre : String) : Bool := pre.data.isPrefixOf s.data

def dropM (s : String) (n : Nat) : String := String.mk (s.data.drop n)

/-- `os.path.exists` on a queue path. -/
def pathExists (fs : FSState) (p : String) : Bool :=
  if startsWithM p "processing/" then (List.lookup (dropM p 11) fs.processing).isSome
  else if startsWithM p "jobs/" then (List.lookup (dropM p 5) fs.jobs).isSome
  else false

/-- `os.remove` on a queue path. -/
def removePath (fs : FSState) (p : String) : FSState :=
  if startsWithM p "processing/" then
    { fs with processing := eraseKey fs.processing (dropM p 11) }
  else if startsWithM p "jobs/" then
    { fs with jobs := eraseKey fs.jobs (dropM p 5) }
  else fs

/-- `send_message`: on success clear `_last_send_error` and deliver the
frame; on failure record the error, flip `_connected` off, deliver
nothing.  The oracle `outcome` is `none` when the two `os.write` calls
succeed, and `some e` (the `repr` of the exception) when they raise. -/
def sendM (st : HostState) (outcome : Option String) (m : Json) :
    HostState × List Json × Bool :=
  match outcome with
  | none => ({ st with lastSendError := none }, [m], true)
  | some e => ({ st with lastSendError := some e, connected := false }, [], false)

/-- The `hello_ack` reply (`ts` is `int(time.time())`, passed in). -/
def helloAck (now : Int) : Json :=
  .obj (.cons "type" (.str "hello_ack") (.cons "ts" (.num now) .nil))

/-- The result dict `handle_incoming` builds for a result frame:
`id` (stringified), `success` (truthiness of the field, default false),
and `error` (stringified) only when the error value is truthy. -/
def resultOfMsg (m : JsonObj) : Json :=
  let jobId := pyStr ((m.get "id").getD .null)
  let success := pyTruthy ((m.get "success").getD (.bool false))
  let base := JsonObj.cons "id" (.str jobId) (.cons "success" (.bool success) .nil)
  match m.get "error" with
  | some ev => if pyTruthy ev then .obj (base.set "error" (.str (pyStr ev))) else .obj base
  | none => .obj base

def base64Char (n : Nat) : Char :=
  if n < 26 then Char.ofNat (65 + n)
  else if n < 52 then Char.ofNat (97 + (n - 26))
  else if n < 62 then Char.ofNat (48 + (n - 52))
  else if n = 62 then '+'
  else '/'

/-- `base64.b64encode` on bytes. -/
def base64 : List Nat → List Char
  | [] => []
  | [a] => [base64Char (a / 4), base64Char (a % 4 * 16), '=', '=']
  | [a, b] => [base64Char (a / 4), base64Char (a % 4 * 16 + b / 16),
      base64Char (b % 16 * 4), '=']
  | a :: b :: c :: rest => base64Char (a / 4) :: base64Char (a % 4 * 16 + b / 16)
      :: base64Char (b % 16 * 4 + c / 64) :: base64Char (c % 64) :: base64 rest

/-- `os.path.basename` (POSIX form: the part after the last slash). -/
def basename (s : String) : String :=
  String.mk ((s.data.reverse.takeWhile (fun c => c != '/')).reverse)

/-- The `getFileData` branch of `handle_incoming` for a file path `fp`:
read and base64-encode the file when it exists and reply with data, name
and size; reply with a structured failure otherwise.  No check of any kind
ties `fp` to a job. -/
def handleGetFile (st : HostState) (fs : FSState) (m : JsonObj)
    (sendErr : Option String) (fp : String) : HostState × FSState × List Json :=
  let reqId := (m.get "id").getD (.str "")
  match List.lookup fp fs.extFiles with
  | some bytes =>
    let r := sendM st sendErr (.obj (.cons "type" (.str "fileDataResponse")
      (.cons "id" reqId (.cons "success" (.bool true)
      (.cons "data" (.str (String.mk (base64 bytes)))
      (.cons "name" (.str (basename fp)) (.cons "size" (.num bytes.length) .nil)))))))
    (r.1, fs, r.2.1)
  | none =>
    let r := sendM st sendErr (.obj (.cons "type" (.str "fileDataResponse")
      (.cons "id" reqId (.cons "success" (.bool false)
      (.cons "error" (.str "File not found") .nil)))))
    (r.1, fs, r.2.1)

/-- `NativeHost.handle_incoming` on a decoded frame (`read_message`
guarantees a dict).  `_connected` is set on ANY inbound message (the
comment in the code says so explicitly); then, in order: a frame with an `id`
and a `success` or `error` key is a job result (pop the in-flight entry,
write the results file for the id - overwriting any previous file - and delete the
recorded processing file); `type = hello` answers `hello_ack`;
`type = getFileData` runs the file proxy (a non-string `filePath` makes
the `os.path.exists` call raise, swallowed by the blanket handler);
anything else is logged and ignored. -/
def handle_incoming (now : Int) (sendErr : Option String) (st0 : HostState)
    (fs : FSState) (m : JsonObj) : HostState × FSState × List Json :=
  let st := { st0 with connected := true }
  if (m.get "id").isSome && ((m.get "success").isSome || (m.get "error").isSome) then
    let jobId := pyStr ((m.get "id").getD .null)
    let ppath := List.lookup jobId st.inflight
    let st1 := { st with inflight := eraseKey st.inflight jobId }
    let fs1 := { fs with results := setKey fs.results jobId (resultOfMsg m) }
    let fs2 := match ppath with
      | some p => if pathExists fs1 p then removePath fs1 p else fs1
      | none => fs1
    (st1, fs2, [])
  else if m.get "type" = some (.str "hello") then
    let r := sendM st sendErr (helloAck now)
    (r.1, fs, r.2.1)
  else if m.get "type" = some (.str "getFileData") then
    match m.get "filePath" with
    | some (.str fp) => handleGetFile st fs m sendErr fp
    | none => handleGetFile st fs m sendErr ""
    | some _ => (st, fs, [])
  else (st, fs, [])

/-! ## Job scan -/

/-- Per-file OS outcomes during a scan: whether the `os.replace` into
`processing/` succeeds within its 5 retries, and whether the send to
the peer fails. -/
structure JobEnv where
  moveOk : Bool
  sendErr : Option String

/-- `job.get("type") or "sendEmail"`. -/
def jobTypeOf (kvs : JsonObj) : Json :=
  match kvs.get "type" with
  | some tv => if pyTruthy tv then tv else .str "sendEmail"
  | none => .str "sendEmail"

/-- The failure result written when forwarding a claimed job fails. -/
def sendFailResult (jobId e : String) : Json :=
  .obj (.cons "id" (.str jobId) (.cons "success" (.bool false)
    (.cons "error" (.str ("Send failed: " ++ e)) .nil)))

/-- `self._last_send_error or "native_host_send_error"`. -/
def failErrName : Option String → String
  | some e => if e = "" then "native_host_send_error" else e
  | none => "native_host_send_error"

def lowerChar (c : Char) : Char :=
  if 65 ≤ c.toNat ∧ c.toNat ≤ 90 then Char.ofNat (c.toNat + 32) else c

/-- `f.lower().endswith(".json")` (ASCII case fold suffices for the
constant suffix). -/
def endsWithJsonLower (f : String) : Bool :=
  ".json".data.isSuffixOf (f.data.map lowerChar)

/-- The `os.listdir(self.jobs_dir)` snapshot filtered to `.json` files. -/
def listJobFiles (fs : FSState) : List String :=
  (fs.jobs.map Prod.fst).filter (fun f => endsWithJsonLower f)

/-- The body of the `for fname in files` loop of `scan_and_forward_jobs`,
iterating over the snapshot.  Per file: re-read the job (skip if it
vanished), extract a truthy id (skip otherwise), drop duplicates whose
result already exists, skip in-flight ids, claim by rename (or process in
place when the rename keeps failing), send, and on send failure write the
failure result, clean up, and keep scanning.  A job file holding a
non-dict JSON value raises `AttributeError` at `job.get`, which the
function-level handler turns into an abort of the remaining scan. -/
def scanList (envf : String → JobEnv) :
    List String → HostState → FSState → List Json → HostState × FSState × List Json
  | [], st, fs, out => (st, fs, out)
  | fname :: rest, st, fs, out =>
    match List.lookup fname fs.jobs with
    | none => scanList envf rest st fs out
    | some job =>
      match job with
      | .obj kvs =>
        let jobId := if pyTruthyOpt (kvs.get "id") then pyStr ((kvs.get "id").getD .null)
          else ""
        if jobId = "" then scanList envf rest st fs out
        else if (List.lookup jobId fs.results).isSome then
          scanList envf rest st { fs with jobs := eraseKey fs.jobs fname } out
        else if (List.lookup jobId st.inflight).isSome then scanList envf rest st fs out
        else
          let fs1 := { fs with processing := eraseKey fs.processing (jobId ++ ".json") }
          let moved := (envf fname).moveOk
          let fs2 := if moved then
              { fs1 with
                jobs := eraseKey fs1.jobs fname
                processing := setKey fs1.processing (jobId ++ ".json") job }
            else fs1
          let ppath := if moved then processingPathOf jobId else jobsPathOf fname
          let r := sendM st (envf fname).sendErr (.obj (kvs.set "type" (jobTypeOf kvs)))
          if r.2.2 then
            scanList envf rest { r.1 with inflight := setKey r.1.inflight jobId ppath }
              fs2 (out ++ r.2.1)
          else
            let e := failErrName r.1.lastSendError
            let fs3 := { fs2 with
              results := setKey fs2.results jobId (sendFailResult jobId e) }
            let fs4 := if ppath ≠ jobsPathOf fname then
                { fs3 with processing := eraseKey fs3.processing (jobId ++ ".json") }
              else { fs3 with jobs := eraseKey fs3.jobs fname }
            scanList envf rest r.1 fs4 (out ++ r.2.1)
      | _ => (st, fs, out)

/-- `NativeHost.scan_and_forward_jobs`: forwarding is gated on
`_connected`; when connected, walk the directory snapshot. -/
def scan_and_forward_jobs (envf : String → JobEnv) (st : HostState) (fs : FSState) :
    HostState × FSState × List Json :=
  if st.connected then scanList envf (listJobFiles fs) st fs [] else (st, fs, [])

/-- Draining of the `_incoming_queue` at the top of each poll iteration:
messages are dispatched in arrival order whatever the connection state. -/
def drainIncoming (now : Int) : List (JsonObj × Option String) → HostState → FSState →
    List Json → HostState × FSState × List Json
  | [], st, fs, out => (st, fs, out)
  | (m, se) :: rest, st, fs, out =>
    let r := handle_incoming now se st fs m
    drainIncoming now rest r.1 r.2.1 (out ++ r.2.2)

/-- One iteration of the `while not self._stop.is_set()` loop of
`NativeHost.run`: drain the inbound queue, then scan and forward.  A total
function: no per-job failure can abort it. -/
def pollCycle (now : Int) (queue : List (JsonObj × Option String))
    (envf : String → JobEnv) (st : HostState) (fs : FSState) :
    HostState × FSState × List Json :=
  let d := drainIncoming now queue st fs []
  let sfw := scan_and_forward_jobs envf d.1 d.2.1
  (sfw.1, sfw.2.1, d.2.2 ++ sfw.2.2)

/-! ## Process lock

`_acquire_process_lock`, modelled sequentially over the state of the lock
file: if the file holds the pid of a process the liveness probe reports
alive, acquisition fails and `__init__` exits via `sys.exit(0)` before the
loop ever runs; a pid the probe reports dead, or a file whose contents do
not parse as an integer (`ValueError`/`OSError`), is removed as stale, and
the host then creates the lock, takes the exclusive advisory lock on the
fresh file (uncontended in this sequential model) and writes its own pid.
The liveness probe abstracts `os.kill(pid, 0)` / `tasklist`. -/

inductive LockFileState where
  | absent
  | corrupt
  | owned (pid : Nat)
  deriving DecidableEq

/-- `_acquire_process_lock`: the decision together with the lock file
state it leaves behind. -/
def acquire_process_lock (alive : Nat → Bool) (selfPid : Nat)
    (lock : LockFileState) : Bool × LockFileState :=
  match lock with
  | .owned p => if alive p then (false, .owned p) else (true, .owned selfPid)
  | .corrupt => (true, .owned selfPid)
  | .absent => (true, .owned selfPid)

/-- `__init__` runs the poll loop only when the lock was acquired;
otherwise it logs and exits immediately. -/
def hostRunsLoop (alive : Nat → Bool) (selfPid : Nat) (lock : LockFileState) : Bool :=
  (acquire_process_lock alive selfPid lock).1

/-! ## Helper lemmas about the dispatch -/

theorem lookup_setKey {β : Type} (l : List (String × β)) (k : String) (v : β) :
    List.lookup k (setKey l k v) = some v := by
  induction l with
  | nil => simp [setKey, List.lookup]
  | cons p t ih =>
    obtain ⟨k', v'⟩ := p
    by_cases h : k' = k
    · subst h
      simp [setKey, List.lookup]
    · have hbeq : (k == k') = false := by
        simp only [beq_eq_false_iff_ne, ne_eq]
        exact fun he => h he.symm
      simp [setKey, h, List.lookup, hbeq, ih]

theorem removePath_results (fs : FSState) (p : String) :
    (removePath fs p).results = fs.results := by
  unfold removePath
  split
  · rfl
  · split <;> rfl

theorem removePath_extFiles (fs : FSState) (p : String) :
    (removePath fs p).extFiles = fs.extFiles := by
  unfold removePath
  split
  · rfl
  · split <;> rfl

/-- The result branch of `handle_incoming`, characterized: a frame with an
`id` key and a `success` or `error` key pops the in-flight entry, writes
the results file for the id with the result built from the frame, and sends
nothing. -/
theorem handle_result_eq (now : Int) (se : Option String) (st : HostState)
    (fs : FSState) (m : JsonObj) (idv : Json) (h1 : m.get "id" = some idv)
    (h2 : (m.get "success").isSome ∨ (m.get "error").isSome) :
    (handle_incoming now se st fs m).1 =
      { st with connected := true, inflight := eraseKey st.inflight (pyStr idv) } ∧
    (handle_incoming now se st fs m).2.1.results =
      setKey fs.results (pyStr idv) (resultOfMsg m) ∧
    (handle_incoming now se st fs m).2.2 = [] := by
  have hcond : ((m.get "id").isSome &&
      ((m.get "success").isSome || (m.get "error").isSome)) = true := by
    rcases h2 with h2 | h2 <;> simp [h1, h2]
  unfold handle_incoming
  rw [if_pos hcond]
  rw [h1]
  refine ⟨rfl, ?_, rfl⟩
  cases hpp : List.lookup (pyStr idv) { st with connected := true }.inflight with
  | none => simp [hpp, lookup_setKey]
  | some p =>
    by_cases hex : pathExists { fs with
        results := setKey fs.results (pyStr idv) (resultOfMsg m) } p = true
    · simp [hpp, hex, removePath_results]
    · simp [hpp, hex]

/-! ## Claims -/

/-- C1, counterexample.  The claim: file data is returned only for paths
named inside a job the host previously issued.  Here the host has issued
no job whatsoever (empty `jobs/`, `processing/`, `results/`, empty
in-flight table), yet a `getFileData` frame naming an arbitrary existing
path is answered with the base64 data of the file. -/
theorem C1_counterexample :
    (handle_incoming 0 none ⟨false, none, []⟩
      ⟨[], [], [], [("/tmp/secret.txt", [104, 105])]⟩
      (.cons "type" (.str "getFileData")
        (.cons "filePath" (.str "/tmp/secret.txt") (.cons "id" (.str "r1") .nil)))).2.2
    = [.obj (.cons "type" (.str "fileDataResponse") (.cons "id" (.str "r1")
        (.cons "success" (.bool true) (.cons "data" (.str "aGk=")
        (.cons "name" (.str "secret.txt") (.cons "size" (.num 2) .nil))))))] := by
  decide

/-- C1, amended: the `getFileData` proxy reads, base64-encodes and returns
the contents of ANY path that exists on disk, with no check against issued
jobs; a path that does not exist is answered with a structured failure. -/
theorem C1_any_existing_file_served :
    (∀ (now : Int) (st : HostState) (fs : FSState) (m : JsonObj) (fp : String)
        (bytes : List Nat),
      m.get "success" = none → m.get "error" = none →
      m.get "type" = some (.str "getFileData") → m.get "filePath" = some (.str fp) →
      List.lookup fp fs.extFiles = some bytes →
      (handle_incoming now none st fs m).2.2 =
        [.obj (.cons "type" (.str "fileDataResponse")
          (.cons "id" ((m.get "id").getD (.str ""))
          (.cons "success" (.bool true)
          (.cons "data" (.str (String.mk (base64 bytes)))
          (.cons "name" (.str (basename fp)) (.cons "size" (.num bytes.length) .nil))))))]) ∧
    (∀ (now : Int) (st : HostState) (fs : FSState) (m : JsonObj) (fp : String),
      m.get "success" = none → m.get "error" = none →
      m.get "type" = some (.str "getFileData") → m.get "filePath" = some (.str fp) →
      List.lookup fp fs.extFiles = none →
      (handle_incoming now none st fs m).2.2 =
        [.obj (.cons "type" (.str "fileDataResponse")
          (.cons "id" ((m.get "id").getD (.str ""))
          (.cons "success" (.bool false)
          (.cons "error" (.str "File not found") .nil))))]) := by
  constructor
  · intro now st fs m fp bytes h1 h2 h3 h4 h5
    unfold handle_incoming
    rw [if_neg (by simp [h1, h2])]
    rw [h3]
    rw [if_neg (by simp +decide)]
    rw [if_pos (by simp +decide)]
    rw [h4]
    unfold handleGetFile
    simp only [h5]
    rfl
  · intro now st fs m fp h1 h2 h3 h4 h5
    unfold handle_incoming
    rw [if_neg (by simp [h1, h2])]
    rw [h3]
    rw [if_neg (by simp +decide)]
    rw [if_pos (by simp +decide)]
    rw [h4]
    unfold handleGetFile
    simp only [h5]
    rfl

/-- C1 witness: the amended statement applied at a concrete state. -/
theorem C1_witness :
    (handle_incoming 7 none ⟨true, none, []⟩
      ⟨[], [], [], [("/home/u/a.pdf", [1, 2, 3])]⟩
      (.cons "type" (.str "getFileData")
        (.cons "filePath" (.str "/home/u/a.pdf") (.cons "id" (.num 4) .nil)))).2.2
    = [.obj (.cons "type" (.str "fileDataResponse") (.cons "id" (.num 4)
        (.cons "success" (.bool true) (.cons "data" (.str "AQID")
        (.cons "name" (.str "a.pdf") (.cons "size" (.num 3) .nil))))))] := by
  have h := C1_any_existing_file_served.1 7 ⟨true, none, []⟩
    ⟨[], [], [], [("/home/u/a.pdf", [1, 2, 3])]⟩
    (.cons "type" (.str "getFileData")
      (.cons "filePath" (.str "/home/u/a.pdf") (.cons "id" (.num 4) .nil)))
    "/home/u/a.pdf" [1, 2, 3] (by decide) (by decide) (by decide) (by decide) (by decide)
  exact h.trans (by decide)

/-- C2, counterexample.  The claim: once a result file for an id exists,
its contents are never modified, and a second write leaves it unchanged.
Here `results/a.json` holds a success result; a second result frame for
the same id rewrites the file to a different (failure) value. -/
theorem C2_counterexample :
    List.lookup "a"
        (FSState.results ⟨[], [],
          [("a", .obj (.cons "id" (.str "a") (.cons "success" (.bool true) .nil)))], []⟩)
      = some (.obj (.cons "id" (.str "a") (.cons "success" (.bool true) .nil))) ∧
    List.lookup "a" ((handle_incoming 0 none ⟨true, none, []⟩
        ⟨[], [], [("a", .obj (.cons "id" (.str "a") (.cons "success" (.bool true) .nil)))], []⟩
        (.cons "id" (.str "a")
          (.cons "success" (.bool false) (.cons "error" (.str "boom") .nil)))).2.1.results)
      = some (.obj (.cons "id" (.str "a")
          (.cons "success" (.bool false) (.cons "error" (.str "boom") .nil)))) ∧
    (Json.obj (.cons "id" (.str "a") (.cons "success" (.bool true) .nil)))
      ≠ .obj (.cons "id" (.str "a")
          (.cons "success" (.bool false) (.cons "error" (.str "boom") .nil))) := by
  refine ⟨by decide, by decide, by decide⟩

/-- C2, amended: a second result write for an id is last-writer-wins - the
file is rewritten with the result built from the new frame, whatever the
existing file held - and the write path raises nothing (dispatch is total;
write errors are swallowed by the surrounding handler). -/
theorem C2_second_write_overwrites (now : Int) (se : Option String) (st : HostState)
    (fs : FSState) (m : JsonObj) (idv r0 : Json)
    (h1 : m.get "id" = some idv)
    (h2 : (m.get "success").isSome ∨ (m.get "error").isSome)
    (hprev : List.lookup (pyStr idv) fs.results = some r0) :
    List.lookup (pyStr idv) (handle_incoming now se st fs m).2.1.results
      = some (resultOfMsg m) := by
  have h := (handle_result_eq now se st fs m idv h1 h2).2.1
  rw [h, lookup_setKey]

/-- C2 witness. -/
theorem C2_witness :
    List.lookup "a" ((handle_incoming 0 none ⟨true, none, []⟩
        ⟨[], [], [("a", .obj (.cons "id" (.str "a") (.cons "success" (.bool true) .nil)))], []⟩
        (.cons "id" (.str "a")
          (.cons "success" (.bool false) (.cons "error" (.str "boom") .nil)))).2.1.results)
      = some (resultOfMsg (.cons "id" (.str "a")
          (.cons "success" (.bool false) (.cons "error" (.str "boom") .nil)))) := by
  exact C2_second_write_overwrites 0 none ⟨true, none, []⟩
    ⟨[], [], [("a", .obj (.cons "id" (.str "a") (.cons "success" (.bool true) .nil)))], []⟩
    (.cons "id" (.str "a") (.cons "success" (.bool false) (.cons "error" (.str "boom") .nil)))
    (.str "a") (.obj (.cons "id" (.str "a") (.cons "success" (.bool true) .nil)))
    (by decide) (by decide) (by decide)

/-- C3: lock acquisition against an existing lock file.  A lock naming a
live pid makes acquisition fail, and `__init__` then exits without running
the loop; a lock naming a dead pid, or an unreadable lock, is removed and
acquisition succeeds with the own pid of the host stored; and acquisition never
succeeds while the lock names a live owner, so in this sequential model no
two live hosts own the lock at once. -/
theorem C3_lock_acquisition :
    (∀ (alive : Nat → Bool) (selfPid p : Nat), alive p = true →
      acquire_process_lock alive selfPid (.owned p) = (false, .owned p) ∧
      hostRunsLoop alive selfPid (.owned p) = false) ∧
    (∀ (alive : Nat → Bool) (selfPid p : Nat), alive p = false →
      acquire_process_lock alive selfPid (.owned p) = (true, .owned selfPid)) ∧
    (∀ (alive : Nat → Bool) (selfPid : Nat),
      acquire_process_lock alive selfPid .corrupt = (true, .owned selfPid) ∧
      acquire_process_lock alive selfPid .absent = (true, .owned selfPid)) ∧
    (∀ (alive : Nat → Bool) (selfPid : Nat) (lock : LockFileState),
      (acquire_process_lock alive selfPid lock).1 = true →
      ∀ p, lock = .owned p → alive p = false) := by
  refine ⟨?_, ?_, ?_, ?_⟩
  · intro alive selfPid p h
    constructor
    · simp [acquire_process_lock, h]
    · simp [hostRunsLoop, acquire_process_lock, h]
  · intro alive selfPid p h
    simp [acquire_process_lock, h]
  · intro alive selfPid
    exact ⟨rfl, rfl⟩
  · intro alive selfPid lock hacq p hlock
    subst hlock
    by_cases h : alive p = true
    · simp [acquire_process_lock, h] at hacq
    · simpa using h

/-- C3 witness. -/
theorem C3_witness :
    acquire_process_lock (fun q => q = 5) 9 (.owned 5) = (false, .owned 5) ∧
    hostRunsLoop (fun q => q = 5) 9 (.owned 5) = false ∧
    acquire_process_lock (fun q => q = 5) 9 (.owned 7) = (true, .owned 9) := by
  refine ⟨(C3_lock_acquisition.1 (fun q => q = 5) 9 5 (by decide)).1,
    (C3_lock_acquisition.1 (fun q => q = 5) 9 5 (by decide)).2,
    C3_lock_acquisition.2.1 (fun q => q = 5) 9 7 (by decide)⟩

/-- C4, counterexample.  The claim: the transition Disconnected to
Connected happens only on a handshake (`type = hello`) frame.  Here a
frame with no `type` key at all - not a handshake - takes a disconnected
host to Connected. -/
theorem C4_counterexample :
    (JsonObj.cons "x" (.num 1) .nil).get "type" = none ∧
    (handle_incoming 0 none ⟨false, none, []⟩ ⟨[], [], [], []⟩
      (.cons "x" (.num 1) .nil)).1.connected = true := by
  refine ⟨by decide, by decide⟩

/-- C4, amended: receipt of ANY inbound frame (whose handling does not end
in a failed send) marks the host Connected, not only a handshake; while
Disconnected the job scan forwards nothing and changes nothing; inbound
frames are still dispatched while Disconnected - a queued handshake is
answered with `hello_ack` within the same poll cycle. -/
theorem C4_any_frame_connects_and_scan_gated :
    (∀ (now : Int) (st : HostState) (fs : FSState) (m : JsonObj),
      (handle_incoming now none st fs m).1.connected = true) ∧
    (∀ (envf : String → JobEnv) (st : HostState) (fs : FSState),
      st.connected = false → scan_and_forward_jobs envf st fs = (st, fs, [])) ∧
    (∀ (now : Int) (envf : String → JobEnv) (st : HostState) (fs : FSState),
      st.connected = false →
      (pollCycle now [(.cons "type" (.str "hello") .nil, none)] envf st fs).2.2.head?
        = some (helloAck now)) := by
  refine ⟨?_, ?_, ?_⟩
  · intro now st fs m
    unfold handle_incoming handleGetFile sendM
    split
    · rfl
    split
    · rfl
    split
    · split
      · split <;> rfl
      · split <;> rfl
      · rfl
    · rfl
  · intro envf st fs h
    simp [scan_and_forward_jobs, h]
  · intro now envf st fs h
    have hh : handle_incoming now none st fs (.cons "type" (.str "hello") .nil)
        = ({ st with connected := true, lastSendError := none }, fs, [helloAck now]) := by
      unfold handle_incoming
      rw [if_neg (by decide)]
      rw [if_pos (by decide)]
      rfl
    unfold pollCycle drainIncoming
    rw [hh]
    rfl

/-- C4 witness. -/
theorem C4_witness :
    (handle_incoming 3 none ⟨false, none, []⟩ ⟨[], [], [], []⟩
      (.cons "q" (.bool true) .nil)).1.connected = true ∧
    scan_and_forward_jobs (fun _ => ⟨true, none⟩) ⟨false, none, []⟩ ⟨[], [], [], []⟩
      = (⟨false, none, []⟩, ⟨[], [], [], []⟩, []) ∧
    (pollCycle 3 [(.cons "type" (.str "hello") .nil, none)] (fun _ => ⟨true, none⟩)
      ⟨false, none, []⟩ ⟨[], [], [], []⟩).2.2.head? = some (helloAck 3) := by
  refine ⟨C4_any_frame_connects_and_scan_gated.1 3 ⟨false, none, []⟩ ⟨[], [], [], []⟩
      (.cons "q" (.bool true) .nil),
    C4_any_frame_connects_and_scan_gated.2.1 (fun _ => ⟨true, none⟩) ⟨false, none, []⟩
      ⟨[], [], [], []⟩ rfl,
    C4_any_frame_connects_and_scan_gated.2.2 3 (fun _ => ⟨true, none⟩) ⟨false, none, []⟩
      ⟨[], [], [], []⟩ rfl⟩

theorem scanList_cons (envf : String → JobEnv) (fname : String) (rest : List String)
    (st : HostState) (fs : FSState) (out : List Json) :
    scanList envf (fname :: rest) st fs out = (match List.lookup fname fs.jobs with
    | none => scanList envf rest st fs out
    | some job =>
      match job with
      | .obj kvs =>
        let jobId := if pyTruthyOpt (kvs.get "id") then pyStr ((kvs.get "id").getD .null)
          else ""
        if jobId = "" then scanList envf rest st fs out
        else if (List.lookup jobId fs.results).isSome then
          scanList envf rest st { fs with jobs := eraseKey fs.jobs fname } out
        else if (List.lookup jobId st.inflight).isSome then scanList envf rest st fs out
        else
          let fs1 := { fs with processing := eraseKey fs.processing (jobId ++ ".json") }
          let moved := (envf fname).moveOk
          let fs2 := if moved then
              { fs1 with
                jobs := eraseKey fs1.jobs fname
                processing := setKey fs1.processing (jobId ++ ".json") job }
            else fs1
          let ppath := if moved then processingPathOf jobId else jobsPathOf fname
          let r := sendM st (envf fname).sendErr (.obj (kvs.set "type" (jobTypeOf kvs)))
          if r.2.2 then
            scanList envf rest { r.1 with inflight := setKey r.1.inflight jobId ppath }
              fs2 (out ++ r.2.1)
          else
            let e := failErrName r.1.lastSendError
            let fs3 := { fs2 with
              results := setKey fs2.results jobId (sendFailResult jobId e) }
            let fs4 := if ppath ≠ jobsPathOf fname then
                { fs3 with processing := eraseKey fs3.processing (jobId ++ ".json") }
              else { fs3 with jobs := eraseKey fs3.jobs fname }
            scanList envf rest r.1 fs4 (out ++ r.2.1)
      | _ => (st, fs, out)) := rfl

theorem processingPath_ne_jobsPath (a b : String) : processingPathOf a ≠ jobsPathOf b := by
  intro h
  have hh : (processingPathOf a).data.head? = (jobsPathOf b).data.head? := by rw [h]
  simp [processingPathOf, jobsPathOf, String.data_append] at hh

/-- C5: when the send of the frame of a claimed job fails, the host immediately
writes the results file for the id with success false and an error string
carrying the transport failure, transitions to Disconnected, and the scan
goes on with the remaining files - the step reduces to the scan of the
rest from the updated state, never an abort. -/
theorem C5_send_failure_writes_result_and_continues (envf : String → JobEnv)
    (fname : String) (rest : List String) (st : HostState) (fs : FSState)
    (out : List Json) (kvs : JsonObj) (e : String)
    (hjob : List.lookup fname fs.jobs = some (.obj kvs))
    (hid : pyTruthyOpt (kvs.get "id") = true)
    (hne : pyStr ((kvs.get "id").getD .null) ≠ "")
    (hres : List.lookup (pyStr ((kvs.get "id").getD .null)) fs.results = none)
    (hinf : List.lookup (pyStr ((kvs.get "id").getD .null)) st.inflight = none)
    (hsend : (envf fname).sendErr = some e) :
    ∃ fs' : FSState,
      scanList envf (fname :: rest) st fs out =
        scanList envf rest { st with lastSendError := some e, connected := false } fs' out ∧
      List.lookup (pyStr ((kvs.get "id").getD .null)) fs'.results =
        some (sendFailResult (pyStr ((kvs.get "id").getD .null)) (failErrName (some e))) := by
  rw [scanList_cons]
  simp only [hjob, hid, if_true, if_neg hne, hres, hinf, Option.isSome_none,
    Bool.false_eq_true, if_false, hsend, sendM, List.append_nil]
  by_cases hm : (envf fname).moveOk
  · simp only [hm, if_true, if_pos (processingPath_ne_jobsPath _ fname)]
    exact ⟨_, rfl, lookup_setKey _ _ _⟩
  · simp only [hm, Bool.false_eq_true, if_false]
    rw [if_neg (by simp)]
    exact ⟨_, rfl, lookup_setKey _ _ _⟩

/-- C5 witness. -/
theorem C5_witness :
    ∃ fs' : FSState,
      scanList (fun _ => ⟨true, some "boom"⟩) ["b.json"] ⟨true, none, []⟩
          ⟨[("b.json", .obj (.cons "id" (.str "b") .nil))], [], [], []⟩ [] =
        scanList (fun _ => ⟨true, some "boom"⟩) [] ⟨false, some "boom", []⟩ fs' [] ∧
      List.lookup "b" fs'.results = some (sendFailResult "b" "boom") := by
  have h := C5_send_failure_writes_result_and_continues (fun _ => ⟨true, some "boom"⟩)
    "b.json" [] ⟨true, none, []⟩
    ⟨[("b.json", .obj (.cons "id" (.str "b") .nil))], [], [], []⟩ []
    (.cons "id" (.str "b") .nil) "boom"
    (by decide) (by decide) (by decide) (by decide) (by decide) (by decide)
  simpa using h

/-- C6, counterexample.  The claim: after a transport (send) failure, no
previously forwarded job remains recorded as in flight.  Here job `a` is
in flight; forwarding job `b` hits a send failure (a failure result for
`b` is written, showing the failure occurred), yet `a` is still recorded
in flight afterwards. -/
theorem C6_counterexample :
    (scan_and_forward_jobs (fun _ => ⟨true, some "boom"⟩) ⟨true, none,
        [("a", "processing/a.json")]⟩
        ⟨[("b.json", .obj (.cons "id" (.str "b") .nil))], [], [], []⟩).1.inflight
      = [("a", "processing/a.json")] ∧
    List.lookup "b" (scan_and_forward_jobs (fun _ => ⟨true, some "boom"⟩) ⟨true, none,
        [("a", "processing/a.json")]⟩
        ⟨[("b.json", .obj (.cons "id" (.str "b") .nil))], [], [], []⟩).2.1.results
      = some (sendFailResult "b" "boom") := by
  refine ⟨by decide, by decide⟩

/-- C6, amended: in-flight entries are removed only when a result frame
for their id arrives; a transport failure flips the connection state but
leaves every recorded in-flight entry in place. -/
theorem C6_inflight_cleared_only_on_result :
    (∀ (now : Int) (se : Option String) (st : HostState) (fs : FSState) (m : JsonObj)
        (idv : Json),
      m.get "id" = some idv → (m.get "success").isSome ∨ (m.get "error").isSome →
      (handle_incoming now se st fs m).1.inflight = eraseKey st.inflight (pyStr idv)) ∧
    (∀ (st : HostState) (e : String) (m : Json),
      (sendM st (some e) m).1.inflight = st.inflight ∧
      (sendM st (some e) m).1.connected = false) := by
  constructor
  · intro now se st fs m idv h1 h2
    have h := (handle_result_eq now se st fs m idv h1 h2).1
    rw [h]
  · intro st e m
    exact ⟨rfl, rfl⟩

/-- C6 witness. -/
theorem C6_witness :
    (handle_incoming 0 none ⟨true, none, [("a", "processing/a.json")]⟩ ⟨[], [], [], []⟩
        (.cons "id" (.str "a") (.cons "success" (.bool true) .nil))).1.inflight
      = eraseKey [("a", "processing/a.json")] "a" ∧
    (sendM ⟨true, none, [("a", "p")]⟩ (some "x") .null).1.inflight = [("a", "p")] := by
  refine ⟨C6_inflight_cleared_only_on_result.1 0 none ⟨true, none,
      [("a", "processing/a.json")]⟩ ⟨[], [], [], []⟩
      (.cons "id" (.str "a") (.cons "success" (.bool true) .nil)) (.str "a")
      (by decide) (by decide),
    (C6_inflight_cleared_only_on_result.2 ⟨true, none, [("a", "p")]⟩ "x" .null).1⟩

/-- C7, counterexample.  The claim: `decode(encode(x)) = x` for every
JSON-serializable `x` whose encoding is under 1 MiB.  The empty list is
JSON-serializable and 2 bytes long, yet `read_message` rejects the frame
(a non-object payload) and returns `None`. -/
theorem C7_counterexample :
    (utf8Encode (dumpsChars (Json.arr .nil))).length ≤ 1048576 ∧
    read_message (wireFrames (Json.arr .nil)) = (none, []) := by
  refine ⟨by decide, by decide⟩

/-- C7, amended: the round trip holds for every JSON-serializable OBJECT
(dict) - the only values `read_message` accepts - whose UTF-8 JSON
encoding is at most 1 MiB: the frame `send_message` emits for it is
decoded back to exactly the same value, consuming the whole stream. -/
theorem C7_object_roundtrip (kvs : JsonObj)
    (hrep : (Json.obj kvs).pyRepresentable = true)
    (hlen : (utf8Encode (dumpsChars (.obj kvs))).length ≤ 1048576) :
    read_message (wireFrames (.obj kvs)) = (some (.obj kvs), []) := by
  have hne : utf8Encode (dumpsChars (.obj kvs)) ≠ [] := by
    cases kvs with
    | nil => exact utf8Encode_cons_ne_nil _ _
    | cons k v t => exact utf8Encode_cons_ne_nil _ _
  have hpos : 1 ≤ (utf8Encode (dumpsChars (.obj kvs))).length := by
    cases hE : utf8Encode (dumpsChars (.obj kvs)) with
    | nil => exact absurd hE hne
    | cons a l => simp
  have hos : osRead (wireFrames (.obj kvs)) 4 =
      (pack4 (utf8Encode (dumpsChars (.obj kvs))).length,
        [utf8Encode (dumpsChars (.obj kvs))]) := by
    simp [wireFrames, osRead, pack4]
  have hle : le4 (pack4 (utf8Encode (dumpsChars (.obj kvs))).length) =
      (utf8Encode (dumpsChars (.obj kvs))).length :=
    le4_pack4 _ (by omega)
  unfold read_message
  rw [hos]
  simp only [hle]
  rw [if_neg (by simp [pack4])]
  rw [if_neg (by omega)]
  rw [readLoop_single_chunk _ _ rfl hpos]
  rw [if_neg (by simp)]
  simp [utf8_roundtrip, loads_dumps, isObj]

/-- C7 witness. -/
theorem C7_witness :
    read_message (wireFrames (.obj (.cons "id" (.str "job-1")
        (.cons "success" (.bool true) .nil))))
      = (some (.obj (.cons "id" (.str "job-1") (.cons "success" (.bool true) .nil))), []) := by
  exact C7_object_roundtrip (.cons "id" (.str "job-1") (.cons "success" (.bool true) .nil))
    (by decide) (by decide)

/-- C8: a frame whose 4-byte little-endian prefix decodes to 0 or to more
than 1 MiB is rejected - `read_message` returns `None` - without reading
any payload byte: the stream keeps everything beyond the 4 prefix bytes. -/
theorem C8_bad_length_rejected (c : List Nat) (cs : ByteStream)
    (h4 : 4 ≤ c.length)
    (hbad : le4 (c.take 4) = 0 ∨ 1048576 < le4 (c.take 4)) :
    read_message (c :: cs) = (none, if c.length = 4 then cs else c.drop 4 :: cs) := by
  by_cases heq : c.length = 4
  · have hos : osRead (c :: cs) 4 = (c, cs) := by simp [osRead, Nat.le_of_eq heq]
    have htake : c.take 4 = c := List.take_of_length_le (by omega)
    rw [htake] at hbad
    unfold read_message
    rw [hos]
    rw [if_neg (by simp; omega)]
    rw [if_pos hbad]
    simp [heq]
  · have hlt : 4 < c.length := by omega
    have hos : osRead (c :: cs) 4 = (c.take 4, c.drop 4 :: cs) := by
      simp only [osRead, if_neg (by omega : ¬ c.length ≤ 4)]
    unfold read_message
    rw [hos]
    rw [if_neg (by simp [List.length_take]; omega)]
    rw [if_pos hbad]
    simp [heq]

/-- C8 witness: an advertised length of 2,000,000 bytes. -/
theorem C8_witness :
    read_message ([128, 132, 30, 0] :: [[65, 66]]) = (none, [[65, 66]]) := by
  have h := C8_bad_length_rejected [128, 132, 30, 0] [[65, 66]] (by decide)
    (by decide)
  simpa using h

/-- C9, counterexample.  The claim: decode reads exactly 4 prefix bytes,
looping over partial reads, and returns nil only at stream end.  Here the
first read delivers a single byte while three more bytes and a payload
remain available; `read_message` nevertheless returns `None`, with the
stream not at its end. -/
theorem C9_counterexample :
    read_message [[5], [0, 0, 0], [123]] = (none, [[0, 0, 0], [123]]) ∧
    ([[0, 0, 0], [123]] : ByteStream) ≠ [] := by
  refine ⟨by decide, by decide⟩

/-- C9, amended: the 4-byte prefix is requested with a single `os.read`,
and a delivery of fewer than 4 bytes makes decode return nil immediately
(it is NOT completed by further reads, and nil is returned with data still
in the stream); the payload read, by contrast, does loop over partial
reads, accumulating exactly the requested bytes whenever the stream holds
them. -/
theorem C9_prefix_single_read_payload_loops :
    (∀ (c : List Nat) (cs : ByteStream), c ≠ [] → c.length < 4 →
      read_message (c :: cs) = (none, cs)) ∧
    (∀ (n : Nat) (s : ByteStream), (∀ ch ∈ s, ch ≠ []) → n ≤ s.flatten.length →
      (readLoop n s).1 = s.flatten.take n) := by
  constructor
  · intro c cs hne hlt
    have hos : osRead (c :: cs) 4 = (c, cs) := by
      simp only [osRead, if_pos (by omega : c.length ≤ 4)]
    unfold read_message
    rw [hos]
    rw [if_pos (by simpa using hlt)]
  · intro n s h1 h2
    exact readLoopAux_take n n s le_rfl h1 h2

/-- C9 witness. -/
theorem C9_witness :
    read_message [[5], [9]] = (none, [[9]]) ∧
    (readLoop 3 [[1], [2, 3]]).1 = ([[1], [2, 3]] : ByteStream).flatten.take 3 := by
  refine ⟨C9_prefix_single_read_payload_loops.1 [5] [[9]] (by decide) (by decide),
    C9_prefix_single_read_payload_loops.2 3 [[1], [2, 3]] (by decide) (by decide)⟩

/-- C10: a frame carrying an `id` and a `success` or `error` key causes
the results file for its id to be written even when the id is absent from the
in-flight table - in particular for ids this host never enqueued or
forwarded. -/
theorem C10_result_written_without_inflight (now : Int) (se : Option String)
    (st : HostState) (fs : FSState) (m : JsonObj) (idv : Json)
    (h1 : m.get "id" = some idv)
    (h2 : (m.get "success").isSome ∨ (m.get "error").isSome)
    (h3 : List.lookup (pyStr idv) st.inflight = none) :
    List.lookup (pyStr idv) (handle_incoming now se st fs m).2.1.results
      = some (resultOfMsg m) := by
  have h := (handle_result_eq now se st fs m idv h1 h2).2.1
  rw [h, lookup_setKey]

/-- C10 witness: a result frame for an id never seen by the host. -/
theorem C10_witness :
    List.lookup "ghost" ((handle_incoming 0 none ⟨true, none, []⟩ ⟨[], [], [], []⟩
        (.cons "id" (.str "ghost") (.cons "error" (.str "nope") .nil))).2.1.results)
      = some (resultOfMsg (.cons "id" (.str "ghost")
          (.cons "error" (.str "nope") .nil))) := by
  exact C10_result_written_without_inflight 0 none ⟨true, none, []⟩ ⟨[], [], [], []⟩
    (.cons "id" (.str "ghost") (.cons "error" (.str "nope") .nil)) (.str "ghost")
    (by decide) (by decide) (by decide)

end NativeHostModel

